import Mathlib

/-!
Shallow embedding of the koma project persistence engine.

Sources embedded here:
- the project store (Project data model, emptyProject template, allKomas,
  setInPoint, setOutPoint, shot, setShot, undoableData, save, open, saveShot,
  openShot, saveImageSequence);
- the async-guard utilities debounceAsync and singleAsync from src/util.ts,
  modelled as explicit event-step state machines over the single-threaded
  cooperative scheduling model;
- the blob store (blobCache) and deepMergeExceptArray, which are imported by
  the project store but whose source files are not in the repository snapshot;
  these are modelled from the spec and marked as such in their doc comments.

Modelling conventions: JS numbers are modelled as Rat (all numeric fields the
claims touch are order-compared or passed through, never float-rounded); frame
and layer indices held in captureShot are Nat per the stated invariant; binary
Blob values are modelled by their byte content (List Nat), so the deep-equality
of the round-trip claim, which compares binary content and ignores filename
strings, is plain equality of trees; a storage root directory is a list of
(filename, content) entries written most-recent-first.
-/

/-- Binary content of a Blob. -/
abbrev Blob := List Nat

abbrev Vec2 := Rat × Rat

abbrev Vec3 := Rat × Rat × Rat

abbrev Quat := Rat × Rat × Rat × Rat

/-- A 2D affine matrix from the linearly package; an opaque pass-through value
for the persistence engine. -/
abbrev Mat2d := List Rat

/-- Partial camera configuration (tethr ConfigType); opaque pass-through. -/
abbrev CameraConfigs := List (String × String)

inductive MixBlendMode where
  | normal
  | lighten
  | darken
  | difference
deriving DecidableEq

structure Tracker where
  position : Vec3
  rotation : Quat
deriving DecidableEq

/-- Shot: a single captured image set plus metadata. Generic over the leaf
type T: T = Blob in memory, T = String (filenames) in flattened form. -/
structure Shot (T : Type) where
  lv : T
  jpg : T
  raw : Option T
  cameraConfigs : CameraConfigs
  tracker : Option Tracker
  dmx : Option (List Rat)
  shootTime : Option Rat
  captureDate : Option Rat
deriving DecidableEq

structure Marker where
  label : String
  verticalPosition : Rat
  duration : Rat
  color : String
  sound : Option String
deriving DecidableEq

structure KomaTarget where
  cameraConfigs : Option CameraConfigs
  tracker : Option Tracker
  dmx : Option (List Rat)
deriving DecidableEq

/-- Koma: the per-frame data, one optional Shot per layer. -/
structure Koma (T : Type) where
  shots : List (Option (Shot T))
  backupShots : Option (List (Shot T)) := none
  target : Option KomaTarget := none
  markers : Option (List Marker) := none
deriving DecidableEq

structure Timeline (T : Type) where
  zoomFactor : Rat
  markerSounds : List (String × T)
  drawing : Option String
deriving DecidableEq

inductive ViewportTransform where
  | fit
  | mat (m : Mat2d)
deriving DecidableEq

structure Viewport where
  transform : ViewportTransform
  liveviewTransform : Mat2d
  shotTransform : Mat2d
  overlay : String
  overlayMaskOpacity : Rat
  overlayLineOpacity : Rat
  onionskinBlend : MixBlendMode
deriving DecidableEq

structure LayerSettings where
  opacity : Rat
  mixBlendMode : MixBlendMode
deriving DecidableEq

structure VisibleProperty where
  visible : Bool
  color : String
deriving DecidableEq

structure Audio (T : Type) where
  src : Option T
  startFrame : Rat
deriving DecidableEq

structure CaptureShot where
  frame : Nat
  layer : Nat
deriving DecidableEq

/-- Project: the root aggregate of the document store. -/
structure Project (T : Type) where
  name : String
  fps : Rat
  captureShot : CaptureShot
  previewRange : Rat × Rat
  onionskin : Rat
  komas : List (Koma T)
  resolution : Vec2
  timeline : Timeline T
  isLooping : Bool
  ShootCondition : String
  cameraConfigs : CameraConfigs
  visibleProperties : List (String × VisibleProperty)
  viewport : Viewport
  layers : List LayerSettings
  audio : Audio T
deriving DecidableEq

/-- The identity 2D matrix (mat2d.identity). -/
def mat2dIdentity : Mat2d := [1, 0, 0, 1, 0, 0]

/-- The default project template emptyProject from the project store. -/
def emptyProject : Project Blob where
  name := "Untitled"
  fps := 15
  previewRange := (0, 0)
  onionskin := 0
  timeline := { zoomFactor := 1, markerSounds := [], drawing := none }
  isLooping := false
  ShootCondition := "() => true"
  cameraConfigs :=
    [ ("focalLength", "50"), ("focusDistance", "24"), ("aperture", "5.6"),
      ("shutterSpeed", "1/100"), ("iso", "100"), ("colorTemperature", "5500") ]
  visibleProperties :=
    [ ("shootTime", { visible := true, color := "#ffffff" }),
      ("focalLength", { visible := true, color := "#ff0000" }),
      ("focusDistance", { visible := true, color := "#00ff00" }),
      ("aperture", { visible := true, color := "#0000ff" }),
      ("shutterSpeed", { visible := true, color := "#ffff00" }),
      ("iso", { visible := true, color := "#00ffff" }),
      ("colorTemperature", { visible := true, color := "#ff00ff" }) ]
  captureShot := { frame := 0, layer := 0 }
  komas := []
  resolution := (1920, 1280)
  viewport :=
    { transform := ViewportTransform.fit
      liveviewTransform := mat2dIdentity
      shotTransform := mat2dIdentity
      overlay := "\n\t\t\t<path class=\"letterbox\" d=\"m0,0v1h1V0H0Zm.9.9H.1V.1h.8v.8Z\"/>\n\t\t\t<line class=\"line\" x1=\"0\" y1=\".5\" x2=\"1\" y2=\".5\" />\n\t\t\t<line class=\"line\" x1=\".5\" y1=\"0\" x2=\".5\" y2=\"1\" />\n\t\t"
      overlayMaskOpacity := 1 / 2
      overlayLineOpacity := 1
      onionskinBlend := MixBlendMode.normal }
  layers := []
  audio := { src := none, startFrame := 0 }

/-- A Koma with an empty shot list, as pushed by the auto-growth loops. -/
def emptyKoma : Koma Blob := { shots := [] }

/-- Derived all-komas view: the stored komas followed by
Math.max(captureShot.frame - komas.length + 1, 0) + 1 empty Komas.
Nat subtraction realises the Math.max(.., 0). -/
def allKomas (p : Project Blob) : List (Koma Blob) :=
  let komaNumberToFill := (p.captureShot.frame + 1 - p.komas.length) + 1
  p.komas ++ List.replicate komaNumberToFill emptyKoma

/-- Clamp with the argument order and branch order of lodash clamp: the upper
bound is applied first, then the lower bound (so the lower bound wins when the
bounds cross). -/
def lodashClamp (v lo hi : Rat) : Rat :=
  let v1 := if v ≤ hi then v else hi
  if lo ≤ v1 then v1 else lo

/-- setInPoint: previewRange[0] becomes Math.min(value, previewRange[1]). -/
def setInPoint (p : Project Blob) (value : Rat) : Project Blob :=
  let inPoint := min value p.previewRange.2
  { p with previewRange := (inPoint, p.previewRange.2) }

/-- setOutPoint: previewRange[1] becomes
clamp(value, previewRange[0], allKomas.length - 1). -/
def setOutPoint (p : Project Blob) (value : Rat) : Project Blob :=
  let outPoint := lodashClamp value p.previewRange.1 (((allKomas p).length : Rat) - 1)
  { p with previewRange := (p.previewRange.1, outPoint) }

/-- JS array indexing arr[i]: some element for an integer index inside the
bounds, undefined (none) otherwise, including every negative index. -/
def jsIndex {α : Type} (xs : List α) (i : Int) : Option α :=
  if h : 0 ≤ i ∧ i.toNat < xs.length then some (xs.get ⟨i.toNat, h.2⟩) else none

/-- JS Array.prototype.at: like indexing, but a negative index is first
shifted by the length, so it counts from the end of the array. -/
def jsAt {α : Type} (xs : List α) (i : Int) : Option α :=
  let j : Int := if i < 0 then (xs.length : Int) + i else i
  jsIndex xs j

/-- Accessor shot(frame, layer) of the project store:
project.komas[frame]?.shots?.at(layer) ?? null. The result none stands for
both a JS undefined lookup and an explicit null slot. -/
def shot (p : Project Blob) (frame layer : Int) : Option (Shot Blob) :=
  match jsIndex p.komas frame with
  | none => none
  | some koma => (jsAt koma.shots layer).join

/-- The while loop of setShot that pushes empty Komas until frame is a valid
index. -/
def pushKomasUntil (komas : List (Koma Blob)) (frame : Nat) : List (Koma Blob) :=
  if komas.length ≤ frame then pushKomasUntil (komas ++ [emptyKoma]) frame
  else komas
termination_by frame + 1 - komas.length
decreasing_by simp at *; omega

/-- The while loop of setShot that pushes null slots until layer is a valid
index. -/
def pushShotsUntil (shots : List (Option (Shot Blob))) (layer : Nat) :
    List (Option (Shot Blob)) :=
  if shots.length ≤ layer then pushShotsUntil (shots ++ [none]) layer
  else shots
termination_by layer + 1 - shots.length
decreasing_by simp at *; omega

/-- Mutation setShot(frame, layer, shot): grow the Koma list to make frame a
valid index, grow the shot list of that Koma to make layer a valid index, then
assign the shot to that slot. -/
def setShot (p : Project Blob) (frame layer : Nat) (s : Shot Blob) : Project Blob :=
  let komas := pushKomasUntil p.komas frame
  let koma := komas.getD frame emptyKoma
  let shots := pushShotsUntil koma.shots layer
  let koma1 := { koma with shots := shots.set layer (some s) }
  { p with komas := komas.set frame koma1 }

/-- The undoable sub-tree: the value produced by the getter of the
undoableData computed ref. -/
structure UndoableData where
  captureShot : CaptureShot
  komas : List (Koma Blob)
deriving DecidableEq

/-- Getter of the undoableData computed ref. -/
def undoableDataGet (p : Project Blob) : UndoableData where
  captureShot := p.captureShot
  komas := p.komas

/-- Setter of the undoableData computed ref: this is the only write path used
by useRefHistory when undo or redo restores a snapshot. -/
def undoableDataSet (p : Project Blob) (d : UndoableData) : Project Blob :=
  { p with captureShot := d.captureShot, komas := d.komas }

/-- State of the debounceAsync guard from util.ts: the isExecuting ref, the
willExecute flag, and a count of how many underlying executions of the wrapped
function have been started. -/
structure DebounceState where
  isExecuting : Bool
  willExecute : Bool
  executions : Nat
deriving DecidableEq

/-- Events of the single-threaded cooperative schedule seen by a debounced
function: an invocation of the wrapper, or the completion of the in-flight
underlying run with its result. -/
inductive DebounceEvent (ε : Type) where
  | call
  | complete (result : Except ε Unit)

/-- One step of debounceAsync. A call while executing only sets willExecute
and returns; a call while idle starts an underlying run. On a successful
completion with willExecute set, the trailing re-invocation runs the wrapped
function again at once (one run, willExecute cleared); on a failed completion
the finally block still clears isExecuting and the error is re-thrown to the
caller unmodified, skipping the trailing-run check. The second component is
the settlement of the wrapper promise, if this event settles one. -/
def debounceStep {ε : Type} (s : DebounceState) :
    DebounceEvent ε → DebounceState × Option (Except ε Unit)
  | .call =>
      if s.isExecuting then ({ s with willExecute := true }, none)
      else ({ s with isExecuting := true, executions := s.executions + 1 }, none)
  | .complete (.ok _) =>
      if s.willExecute then
        ({ isExecuting := true, willExecute := false,
           executions := s.executions + 1 }, some (Except.ok ()))
      else ({ s with isExecuting := false }, some (Except.ok ()))
  | .complete (.error e) => ({ s with isExecuting := false }, some (Except.error e))

/-- Run of a debounced function over a schedule of events. -/
def debounceRun {ε : Type} (s : DebounceState) (es : List (DebounceEvent ε)) :
    DebounceState :=
  es.foldl (fun a e => (debounceStep a e).1) s

/-- Initial state of a debounced function. -/
def debounceInit : DebounceState where
  isExecuting := false
  willExecute := false
  executions := 0

/-- State of the singleAsync guard protecting open: the isExecuting ref plus
counters of the externally visible effects of the guarded open body, which
replaces the project tree exactly once and clears the history exactly once per
execution. -/
structure OpenState where
  isExecuting : Bool
  treeReplacements : Nat
  historyClears : Nat
deriving DecidableEq

/-- Events seen by the singleAsync-guarded open: an invocation, or the
completion of the in-flight execution. -/
inductive OpenEvent where
  | call
  | complete
deriving DecidableEq

/-- One step of singleAsync: a call while executing returns immediately with
no effect; a call while idle runs the body (one tree replacement, one history
clear); completion clears isExecuting. -/
def openStep (s : OpenState) : OpenEvent → OpenState
  | .call =>
      if s.isExecuting then s
      else { isExecuting := true, treeReplacements := s.treeReplacements + 1,
             historyClears := s.historyClears + 1 }
  | .complete => { s with isExecuting := false }

/-- Run of the singleAsync-guarded open over a schedule of events. -/
def openRun (s : OpenState) (es : List OpenEvent) : OpenState :=
  es.foldl openStep s

/-- Initial state of the singleAsync guard. -/
def openInit : OpenState where
  isExecuting := false
  treeReplacements := 0
  historyClears := 0

/-- Decimal digit list of a natural number, as JS Number.prototype.toString
produces for a nonnegative integer frame or layer number. -/
def natToDecimal (n : Nat) : List Char :=
  if n < 10 then [Nat.digitChar n]
  else natToDecimal (n / 10) ++ [Nat.digitChar (n % 10)]
termination_by n
decreasing_by exact Nat.div_lt_self (by omega) (by omega)

/-- Decimal string of a natural number. -/
def natStr (n : Nat) : String := ⟨natToDecimal n⟩

/-- Decimal value of a digit list; inverse of natToDecimal, used to prove the
filename scheme injective. -/
def decVal (l : List Char) : Nat :=
  l.foldl (fun a c => a * 10 + (c.toNat - 48)) 0

/-- Function queryString from util.ts: the k=v entries joined with an
ampersand. -/
def queryString (query : List (String × Nat)) : String :=
  String.intercalate "&" (query.map fun kv => kv.1 ++ "=" ++ natStr kv.2)

/-- JS String.prototype.padStart(n, c): prepend copies of c until the length
reaches n; a string already that long is returned unchanged. -/
def padStart (s : String) (n : Nat) (c : Char) : String :=
  ⟨List.replicate (n - s.data.length) c ++ s.data⟩

/-- Contents of a storage root: named binary files, most recent write first. -/
abbrev Storage := List (String × Blob)

/-- Read the current content of a named file, none when absent. -/
def storageRead (st : Storage) (f : String) : Option Blob := st.lookup f

/-- The (filename, content) writes emitted by a flatten pass, in program
order. -/
abbrev Writes := List (String × Blob)

/-- Apply a sequence of writes to a root. -/
def writeAll (st : Storage) (ws : Writes) : Storage :=
  ws.foldl (fun acc w => (w.1, w.2) :: acc) st

/-- Modelled from the spec: blobCache.save, whose source file is not in the
snapshot. It persists the binary under the given name in the root and returns
the name; its identity-keyed memoization only skips rewrites of content
already stored under that name, so root contents are as if every write were
performed. -/
def blobSave (filename : String) (b : Blob) : String × Writes :=
  (filename, [(filename, b)])

/-- Modelled from the spec: blobCache.open, whose source file is not in the
snapshot: read the named file from the root, failing (none) when the entry
does not exist. -/
def blobOpen (st : Storage) (filename : String) : Option Blob :=
  storageRead st filename

/-- Function saveImageSequence: write one blob under
basename_FFFF.extension with the frame number zero-padded to width 4. -/
def saveImageSequence (blob : Blob) (basename : String) (frame : Nat)
    (extension : String) : String × Writes :=
  let suffix := padStart (natStr frame) 4 '0'
  let filename := basename ++ "_" ++ suffix ++ "." ++ extension
  blobSave filename blob

/-- Function saveShot: write the lv, jpg and optional raw blobs of a shot and
replace them by the filenames; metadata passes through. -/
def saveShot (projectName : String) (s : Shot Blob) (frame : Nat)
    (query : List (String × Nat)) : Shot String × Writes :=
  let basename := projectName ++ "_" ++ queryString query
  let lv := saveImageSequence s.lv (basename ++ "_lv") frame "jpg"
  let jpg := saveImageSequence s.jpg basename frame "jpg"
  let raw : Option String × Writes :=
    match s.raw with
    | none => (none, [])
    | some r =>
        let w := saveImageSequence r basename frame "dng"
        (some w.1, w.2)
  ({ lv := lv.1, jpg := jpg.1, raw := raw.1, cameraConfigs := s.cameraConfigs,
     tracker := s.tracker, dmx := s.dmx, shootTime := s.shootTime,
     captureDate := s.captureDate },
   lv.2 ++ jpg.2 ++ raw.2)

/-- Flatten the layer-indexed shot slots of one koma (null slots stay null);
the second argument is the layer number of the first slot. -/
def flattenShots (projectName : String) (frame : Nat) :
    List (Option (Shot Blob)) → Nat → List (Option (Shot String)) × Writes
  | [], _ => ([], [])
  | none :: rest, layer =>
      let r := flattenShots projectName frame rest (layer + 1)
      (none :: r.1, r.2)
  | some s :: rest, layer =>
      let w := saveShot projectName s frame [("layer", layer)]
      let r := flattenShots projectName frame rest (layer + 1)
      (some w.1 :: r.1, w.2 ++ r.2)

/-- Flatten the index-numbered backup shots of one koma. -/
def flattenBackups (projectName : String) (frame : Nat) :
    List (Shot Blob) → Nat → List (Shot String) × Writes
  | [], _ => ([], [])
  | s :: rest, index =>
      let w := saveShot projectName s frame [("backup", index)]
      let r := flattenBackups projectName frame rest (index + 1)
      (w.1 :: r.1, w.2 ++ r.2)

/-- Flatten one koma: shots, then optional backup shots; target and markers
pass through. -/
def flattenKoma (projectName : String) (frame : Nat) (k : Koma Blob) :
    Koma String × Writes :=
  let shots := flattenShots projectName frame k.shots 0
  let backups : Option (List (Shot String)) × Writes :=
    match k.backupShots with
    | none => (none, [])
    | some bs =>
        let r := flattenBackups projectName frame bs 0
        (some r.1, r.2)
  ({ shots := shots.1, backupShots := backups.1, target := k.target,
     markers := k.markers },
   shots.2 ++ backups.2)

/-- Flatten the frame-indexed koma list; the second argument is the frame
number of the first koma. -/
def flattenKomas (projectName : String) :
    List (Koma Blob) → Nat → List (Koma String) × Writes
  | [], _ => ([], [])
  | k :: rest, frame =>
      let w := flattenKoma projectName frame k
      let r := flattenKomas projectName rest (frame + 1)
      (w.1 :: r.1, w.2 ++ r.2)

/-- Flatten the marker sound map: each entry named marker_KEY.wav. -/
def flattenMarkerSounds : List (String × Blob) → List (String × String) × Writes
  | [] => ([], [])
  | (name, src) :: rest =>
      let w := blobSave ("marker_" ++ name ++ ".wav") src
      let r := flattenMarkerSounds rest
      ((name, w.1) :: r.1, w.2 ++ r.2)

/-- Flatten the audio track: the optional source blob is written as
audio.wav. -/
def flattenAudio (a : Audio Blob) : Audio String × Writes :=
  match a.src with
  | none => ({ src := none, startFrame := a.startFrame }, [])
  | some src =>
      let w := blobSave "audio.wav" src
      ({ src := some w.1, startFrame := a.startFrame }, w.2)

/-- Flatten pass of save: substitute every binary leaf by its filename and
collect the writes performed through the blob store in program order (marker
sounds, komas, audio); every other field passes through unchanged. -/
def flattenProject (p : Project Blob) : Project String × Writes :=
  let ms := flattenMarkerSounds p.timeline.markerSounds
  let ks := flattenKomas p.name p.komas 0
  let au := flattenAudio p.audio
  ({ name := p.name, fps := p.fps, captureShot := p.captureShot,
     previewRange := p.previewRange, onionskin := p.onionskin,
     komas := ks.1, resolution := p.resolution,
     timeline := { zoomFactor := p.timeline.zoomFactor, markerSounds := ms.1,
                   drawing := p.timeline.drawing },
     isLooping := p.isLooping, ShootCondition := p.ShootCondition,
     cameraConfigs := p.cameraConfigs,
     visibleProperties := p.visibleProperties,
     viewport := p.viewport, layers := p.layers, audio := au.1 },
   ms.2 ++ ks.2 ++ au.2)

/-- Function openShot: read the lv, jpg and optional raw blobs back from the
root; metadata passes through. -/
def openShot (st : Storage) (s : Shot String) : Option (Shot Blob) := do
  let lv ← blobOpen st s.lv
  let jpg ← blobOpen st s.jpg
  let raw ← match s.raw with
    | none => some none
    | some r => (blobOpen st r).map some
  some { lv := lv, jpg := jpg, raw := raw, cameraConfigs := s.cameraConfigs,
         tracker := s.tracker, dmx := s.dmx, shootTime := s.shootTime,
         captureDate := s.captureDate }

/-- Unflatten the shot slots of one koma; a null slot stays null with no read
attempted. -/
def openShots (st : Storage) :
    List (Option (Shot String)) → Option (List (Option (Shot Blob)))
  | [] => some []
  | none :: rest => (openShots st rest).map (none :: ·)
  | some s :: rest => do
      let b ← openShot st s
      let r ← openShots st rest
      some (some b :: r)

/-- Unflatten the backup shots of one koma. -/
def openBackups (st : Storage) :
    List (Shot String) → Option (List (Shot Blob))
  | [] => some []
  | s :: rest => do
      let b ← openShot st s
      let r ← openBackups st rest
      some (b :: r)

/-- Unflatten one koma. -/
def openKoma (st : Storage) (k : Koma String) : Option (Koma Blob) := do
  let shots ← openShots st k.shots
  let backups ← match k.backupShots with
    | none => some none
    | some bs => (openBackups st bs).map some
  some { shots := shots, backupShots := backups, target := k.target,
         markers := k.markers }

/-- Unflatten the koma list. -/
def openKomas (st : Storage) : List (Koma String) → Option (List (Koma Blob))
  | [] => some []
  | k :: rest => do
      let b ← openKoma st k
      let r ← openKomas st rest
      some (b :: r)

/-- Unflatten the marker sound map. -/
def openMarkerSounds (st : Storage) :
    List (String × String) → Option (List (String × Blob))
  | [] => some []
  | (name, src) :: rest => do
      let b ← blobOpen st src
      let r ← openMarkerSounds st rest
      some ((name, b) :: r)

/-- Unflatten the audio track; an absent source stays absent with no read
attempted. -/
def openAudio (st : Storage) (a : Audio String) : Option (Audio Blob) :=
  match a.src with
  | none => some { src := none, startFrame := a.startFrame }
  | some src =>
      (blobOpen st src).map fun b => { src := some b, startFrame := a.startFrame }

/-- Unflatten pass of open: read every filename leaf back from the root;
every other field passes through unchanged. -/
def unflattenProject (st : Storage) (p : Project String) :
    Option (Project Blob) := do
  let ms ← openMarkerSounds st p.timeline.markerSounds
  let ks ← openKomas st p.komas
  let au ← openAudio st p.audio
  some { name := p.name, fps := p.fps, captureShot := p.captureShot,
         previewRange := p.previewRange, onionskin := p.onionskin,
         komas := ks, resolution := p.resolution,
         timeline := { zoomFactor := p.timeline.zoomFactor, markerSounds := ms,
                       drawing := p.timeline.drawing },
         isLooping := p.isLooping, ShootCondition := p.ShootCondition,
         cameraConfigs := p.cameraConfigs,
         visibleProperties := p.visibleProperties,
         viewport := p.viewport, layers := p.layers, audio := au }

/-- Merge rule of a single optional field: the loaded value wins when present,
else the default applies. -/
def mergeOpt {α : Type} (loaded dflt : Option α) : Option α :=
  match loaded with
  | some v => some v
  | none => dflt

/-- Merge rule of a record of optional entries (a JS object that is not an
array): every entry of the loaded record wins, and an entry of the default
whose key is absent from the loaded record is supplied from the default. -/
def mergeRecord {α : Type} (loaded dflt : List (String × α)) :
    List (String × α) :=
  loaded ++ dflt.filter (fun kv => (loaded.lookup kv.1).isNone)

/-- Modelled from the spec: deepMergeExceptArray, whose source file is not in
the snapshot. Per the merge-with-defaults policy the loaded tree is deep
merged field by field against the default template: a non-array field present
in the loaded tree wins, a missing optional field falls back to the default,
records of optional entries (the partial cameraConfigs, visibleProperties and
markerSounds) are merged keywise with absent keys supplied from the default,
and an array-typed field is taken wholesale from the loaded tree, never
merged element-wise with the default array. -/
def deepMergeExceptArray (loaded dflt : Project Blob) : Project Blob where
  name := loaded.name
  fps := loaded.fps
  captureShot := loaded.captureShot
  previewRange := loaded.previewRange
  onionskin := loaded.onionskin
  komas := loaded.komas
  resolution := loaded.resolution
  timeline :=
    { zoomFactor := loaded.timeline.zoomFactor
      markerSounds :=
        mergeRecord loaded.timeline.markerSounds dflt.timeline.markerSounds
      drawing := mergeOpt loaded.timeline.drawing dflt.timeline.drawing }
  isLooping := loaded.isLooping
  ShootCondition := loaded.ShootCondition
  cameraConfigs := mergeRecord loaded.cameraConfigs dflt.cameraConfigs
  visibleProperties :=
    mergeRecord loaded.visibleProperties dflt.visibleProperties
  viewport := loaded.viewport
  layers := loaded.layers
  audio :=
    { src := mergeOpt loaded.audio.src dflt.audio.src
      startFrame := loaded.audio.startFrame }

/-- A storage root: the binary asset files plus the project.json manifest. -/
structure Root where
  files : Storage
  manifest : Option (Project String)
deriving DecidableEq

/-- Logical save: flatten the project, performing every blob store write
against the root, then write the manifest project.json. -/
def save (p : Project Blob) (r : Root) : Root :=
  let f := flattenProject p
  { files := writeAll r.files f.2, manifest := some f.1 }

/-- Logical open: read the manifest project.json (failing when absent),
unflatten it against the root contents, then merge the result with the
default template before it replaces the tree. -/
def openProject (r : Root) : Option (Project Blob) := do
  let flat ← r.manifest
  let tree ← unflattenProject r.files flat
  some (deepMergeExceptArray tree emptyProject)

/-- Which of the up-to-three image files of a shot a filename denotes; proof
infrastructure for the filename scheme. -/
inductive ShotPart where
  | lv
  | jpg
  | raw
deriving DecidableEq

/-- Abstract address of one binary file written by a flatten pass; proof
infrastructure for the filename scheme. -/
inductive FileTag where
  | marker (key : String)
  | audio
  | image (backup : Bool) (index : Nat) (part : ShotPart) (frame : Nat)
deriving DecidableEq

/-- The filename the flatten pass gives to the file at an address. -/
def FileTag.encode (projectName : String) : FileTag → String
  | .marker key => "marker_" ++ key ++ ".wav"
  | .audio => "audio.wav"
  | .image backup index part frame =>
      projectName ++ "_" ++ (if backup then "backup" else "layer") ++ "="
        ++ natStr index
        ++ (if part = ShotPart.lv then "_lv" else "")
        ++ "_" ++ padStart (natStr frame) 4 '0'
        ++ "." ++ (if part = ShotPart.raw then "dng" else "jpg")

/-- The addresses written for one shot: lv, jpg, and raw when present. -/
def shotTags (backup : Bool) (index frame : Nat) (hasRaw : Bool) : List FileTag :=
  [FileTag.image backup index ShotPart.lv frame,
   FileTag.image backup index ShotPart.jpg frame]
    ++ (if hasRaw then [FileTag.image backup index ShotPart.raw frame] else [])

/-- The addresses written for the layer-indexed shot slots of one koma. -/
def shotsTags (frame : Nat) :
    List (Option (Shot Blob)) → Nat → List FileTag
  | [], _ => []
  | none :: rest, layer => shotsTags frame rest (layer + 1)
  | some s :: rest, layer =>
      shotTags false layer frame s.raw.isSome ++ shotsTags frame rest (layer + 1)

/-- The addresses written for the backup shots of one koma. -/
def backupsTags (frame : Nat) : List (Shot Blob) → Nat → List FileTag
  | [], _ => []
  | s :: rest, index =>
      shotTags true index frame s.raw.isSome ++ backupsTags frame rest (index + 1)

/-- The addresses written for one koma. -/
def komaTags (frame : Nat) (k : Koma Blob) : List FileTag :=
  shotsTags frame k.shots 0
    ++ (match k.backupShots with
        | none => []
        | some bs => backupsTags frame bs 0)

/-- The addresses written for the koma list. -/
def komasTags : List (Koma Blob) → Nat → List FileTag
  | [], _ => []
  | k :: rest, frame => komaTags frame k ++ komasTags rest (frame + 1)

/-- Every address written by a flatten pass of the project, in program
order. -/
def projectTags (p : Project Blob) : List FileTag :=
  p.timeline.markerSounds.map (fun kv => FileTag.marker kv.1)
    ++ komasTags p.komas 0
    ++ (match p.audio.src with
        | none => []
        | some _ => [FileTag.audio])

/-- Frame number of an image address (0 for the other kinds). -/
def FileTag.frameOf : FileTag → Nat
  | .image _ _ _ f => f
  | _ => 0

/-- Layer or backup index of an image address (0 for the other kinds). -/
def FileTag.idxOf : FileTag → Nat
  | .image _ i _ _ => i
  | _ => 0

/-- Whether an address is an image address. -/
def FileTag.isImage : FileTag → Bool
  | .image _ _ _ _ => true
  | _ => false

/-- Whether an image address belongs to a backup shot. -/
def FileTag.isBackup : FileTag → Bool
  | .image b _ _ _ => b
  | _ => false

/-- A concrete shot used by the concrete scenarios. -/
def testShot : Shot Blob where
  lv := [1, 2]
  jpg := [3, 4]
  raw := none
  cameraConfigs := []
  tracker := none
  dmx := none
  shootTime := none
  captureDate := none

/-- A project holding one koma with one shot at layer 0. -/
def oneShotProject : Project Blob :=
  { emptyProject with komas := [{ shots := [some testShot] }] }

/-- An empty storage root. -/
def emptyRoot : Root where
  files := []
  manifest := none

/-- A project whose partial cameraConfigs record is empty, so the
merge-with-defaults pass of open supplies the default camera entries. -/
def strippedProject : Project Blob :=
  { emptyProject with cameraConfigs := [] }

/-- Theorems. The lemmas below establish the closed forms of the growth loops
and the read-back behaviour of the storage model, then each claim is settled
by one theorem. -/
theorem pushKomasUntil_eq (komas : List (Koma Blob)) (frame : Nat) :
    pushKomasUntil komas frame =
      komas ++ List.replicate (frame + 1 - komas.length) emptyKoma := by
  by_cases h : komas.length ≤ frame
  · have key : ∀ k (l : List (Koma Blob)), k = frame + 1 - l.length →
        pushKomasUntil l frame = l ++ List.replicate (frame + 1 - l.length) emptyKoma := by
      intro k
      induction k with
      | zero =>
          intro l hk
          rw [pushKomasUntil]
          have hl : ¬ l.length ≤ frame := by omega
          simp [hl]
          omega
      | succ m ih =>
          intro l hk
          rw [pushKomasUntil]
          by_cases hl : l.length ≤ frame
          · rw [if_pos hl, ih (l ++ [emptyKoma]) (by simp; omega)]
            have h1 : frame + 1 - (l ++ [emptyKoma]).length = m := by simp; omega
            have h2 : frame + 1 - l.length = m + 1 := by omega
            rw [h1, h2, List.append_assoc]
            simp [List.replicate_succ]
          · rw [if_neg hl]
            have : frame + 1 - l.length = 0 := by omega
            simp [this]
    exact key (frame + 1 - komas.length) komas rfl
  · rw [pushKomasUntil, if_neg h]
    have : frame + 1 - komas.length = 0 := by omega
    simp [this]

theorem pushShotsUntil_eq (shots : List (Option (Shot Blob))) (layer : Nat) :
    pushShotsUntil shots layer =
      shots ++ List.replicate (layer + 1 - shots.length) none := by
  by_cases h : shots.length ≤ layer
  · have key : ∀ k (l : List (Option (Shot Blob))), k = layer + 1 - l.length →
        pushShotsUntil l layer = l ++ List.replicate (layer + 1 - l.length) none := by
      intro k
      induction k with
      | zero =>
          intro l hk
          rw [pushShotsUntil]
          have hl : ¬ l.length ≤ layer := by omega
          simp [hl]
          omega
      | succ m ih =>
          intro l hk
          rw [pushShotsUntil]
          by_cases hl : l.length ≤ layer
          · rw [if_pos hl, ih (l ++ [none]) (by simp; omega)]
            have h1 : layer + 1 - (l ++ [none]).length = m := by simp; omega
            have h2 : layer + 1 - l.length = m + 1 := by omega
            rw [h1, h2, List.append_assoc]
            simp [List.replicate_succ]
          · rw [if_neg hl]
            have : layer + 1 - l.length = 0 := by omega
            simp [this]
    exact key (layer + 1 - shots.length) shots rfl
  · rw [pushShotsUntil, if_neg h]
    have : layer + 1 - shots.length = 0 := by omega
    simp [this]

theorem getD_append_replicate {α : Type} (l : List α) (k i : Nat) (d : α) :
    (l ++ List.replicate k d).getD i d = l.getD i d := by
  simp only [List.getD_eq_getElem?_getD, List.getElem?_append,
    List.getElem?_replicate]
  split
  · rfl
  · rename_i h
    rw [List.getElem?_eq_none (by omega)]
    split <;> simp


theorem setShot_komas_eq (p : Project Blob) (f l : Nat) (s : Shot Blob) :
    (setShot p f l s).komas =
      (p.komas ++ List.replicate (f + 1 - p.komas.length) emptyKoma).set f
        { shots := ((p.komas.getD f emptyKoma).shots ++
            List.replicate (l + 1 - (p.komas.getD f emptyKoma).shots.length)
              none).set l (some s)
          backupShots := (p.komas.getD f emptyKoma).backupShots
          target := (p.komas.getD f emptyKoma).target
          markers := (p.komas.getD f emptyKoma).markers } := by
  unfold setShot
  simp only [pushKomasUntil_eq, pushShotsUntil_eq, getD_append_replicate]

theorem getD_set_self {α : Type} (l : List α) (i : Nat) (a d : α)
    (h : i < l.length) : (l.set i a).getD i d = a := by
  rw [List.getD_eq_getElem?_getD, List.getElem?_set, if_pos rfl, if_pos h]
  rfl

theorem getD_set_ne {α : Type} (l : List α) (i j : Nat) (a d : α)
    (h : i ≠ j) : (l.set i a).getD j d = l.getD j d := by
  rw [List.getD_eq_getElem?_getD, List.getElem?_set, if_neg h,
    ← List.getD_eq_getElem?_getD]

/-- Claim C4: setShot(frame, layer, shot) grows the Koma sequence by appending
empty Komas until frame is a valid index and grows that Koma shot-slot
sequence by appending null until layer is a valid index, then assigns;
sequences never shrink, every freshly appended intermediate koma is empty and
every freshly appended intermediate slot is null. -/
theorem setShot_growth (p : Project Blob) (f l : Nat) (s : Shot Blob) :
    (setShot p f l s).komas.length = max p.komas.length (f + 1)
  ∧ ((setShot p f l s).komas.getD f emptyKoma).shots.length =
      max (p.komas.getD f emptyKoma).shots.length (l + 1)
  ∧ p.komas.length ≤ (setShot p f l s).komas.length
  ∧ (∀ i : Nat, (p.komas.getD i emptyKoma).shots.length ≤
      ((setShot p f l s).komas.getD i emptyKoma).shots.length)
  ∧ (∀ i : Nat, p.komas.length ≤ i → i < f →
      (setShot p f l s).komas[i]? = some emptyKoma)
  ∧ (∀ j : Nat, (p.komas.getD f emptyKoma).shots.length ≤ j → j < l →
      ((setShot p f l s).komas.getD f emptyKoma).shots[j]? = some none) := by
  rw [setShot_komas_eq]
  have hlen : f < (p.komas ++ List.replicate (f + 1 - p.komas.length)
      emptyKoma).length := by
    simp; omega
  refine ⟨?_, ?_, ?_, ?_, ?_, ?_⟩
  · simp only [List.length_set, List.length_append, List.length_replicate]
    omega
  · rw [getD_set_self _ _ _ _ hlen]
    simp only [List.length_set, List.length_append, List.length_replicate]
    omega
  · simp only [List.length_set, List.length_append, List.length_replicate]
    omega
  · intro i
    by_cases hif : i = f
    · subst hif
      rw [getD_set_self _ _ _ _ hlen]
      simp only [List.length_set, List.length_append, List.length_replicate]
      omega
    · rw [getD_set_ne _ _ _ _ _ (fun h => hif h.symm), getD_append_replicate]
  · intro i h1 h2
    rw [List.getElem?_set, if_neg (by omega),
      List.getElem?_append_right (by omega), List.getElem?_replicate,
      if_pos (by omega)]
  · intro j h1 h2
    rw [getD_set_self _ _ _ _ hlen]
    rw [List.getElem?_set, if_neg (by omega),
      List.getElem?_append_right (by omega), List.getElem?_replicate,
      if_pos (by omega)]

/-- Claim C4 witness: setShot(5, 2, s) on the empty project yields a koma
sequence of length 6, with koma 5 holding 3 shot slots, intermediate koma 0
empty and intermediate slot 0 of koma 5 null. -/
theorem setShot_growth_witness :
    (setShot emptyProject 5 2 testShot).komas.length = 6
  ∧ ((setShot emptyProject 5 2 testShot).komas.getD 5 emptyKoma).shots.length = 3
  ∧ (setShot emptyProject 5 2 testShot).komas[0]? = some emptyKoma
  ∧ ((setShot emptyProject 5 2 testShot).komas.getD 5 emptyKoma).shots[0]? =
      some none :=
  have h := setShot_growth emptyProject 5 2 testShot
  ⟨by rw [h.1]; decide, by rw [h.2.1]; decide,
   h.2.2.2.2.1 0 (by decide) (by decide),
   h.2.2.2.2.2 0 (by decide) (by decide)⟩

theorem jsIndex_natCast {α : Type} (xs : List α) (n : Nat) :
    jsIndex xs (n : Int) = xs[n]? := by
  by_cases hn : n < xs.length
  · have hcond : 0 ≤ (n : Int) ∧ ((n : Int)).toNat < xs.length := by
      refine ⟨Int.natCast_nonneg n, ?_⟩
      simpa using hn
    rw [jsIndex, dif_pos hcond, List.getElem?_eq_getElem hn]
    simp [List.get_eq_getElem]
  · have hcond : ¬ (0 ≤ (n : Int) ∧ ((n : Int)).toNat < xs.length) := by
      intro hc
      exact hn (by simpa using hc.2)
    rw [jsIndex, dif_neg hcond, List.getElem?_eq_none (by omega)]

theorem jsAt_natCast {α : Type} (xs : List α) (n : Nat) :
    jsAt xs (n : Int) = xs[n]? := by
  have h : ¬ ((n : Int) < 0) := by omega
  rw [jsAt]
  simp only [h, if_false]
  exact jsIndex_natCast xs n

theorem shot_natCast (p : Project Blob) (f l : Nat) :
    shot p (f : Int) (l : Int) =
      match p.komas[f]? with
      | none => none
      | some k => (k.shots[l]?).join := by
  unfold shot
  rw [jsIndex_natCast]
  cases p.komas[f]? with
  | none => rfl
  | some k =>
      show (jsAt k.shots (l : Int)).join = (k.shots[l]?).join
      rw [jsAt_natCast]

/-- Claim C10: after setShot(f, l, s) the accessor shot(f, l) returns exactly
s, and every other previously occupied slot still holds the shot it held
before the call. -/
theorem setShot_then_shot (p : Project Blob) (f l : Nat) (s : Shot Blob) :
    shot (setShot p f l s) (f : Int) (l : Int) = some s
  ∧ (∀ f1 l1 : Nat, (f1 ≠ f ∨ l1 ≠ l) → ∀ s1 : Shot Blob,
      shot p (f1 : Int) (l1 : Int) = some s1 →
      shot (setShot p f l s) (f1 : Int) (l1 : Int) = some s1) := by
  have hlen : f < (p.komas ++ List.replicate (f + 1 - p.komas.length)
      emptyKoma).length := by
    simp; omega
  have extract : ∀ (q : Project Blob) (f1 l1 : Nat) (s1 : Shot Blob),
      shot q (f1 : Int) (l1 : Int) = some s1 →
      ∃ k, q.komas[f1]? = some k ∧ k.shots[l1]? = some (some s1) := by
    intro q f1 l1 s1 h
    rw [shot_natCast] at h
    cases hk : q.komas[f1]? with
    | none => rw [hk] at h; exact absurd h (by simp)
    | some k =>
        rw [hk] at h
        have h2 : (k.shots[l1]?).join = some s1 := h
        refine ⟨k, rfl, ?_⟩
        cases hsl : k.shots[l1]? with
        | none =>
            rw [hsl] at h2
            exact absurd h2 (by simp [Option.join])
        | some o =>
            rw [hsl] at h2
            cases o with
            | none => exact absurd h2 (by simp [Option.join])
            | some s2 =>
                have hss : s2 = s1 := by simpa using h2
                rw [hss]
  constructor
  · rw [shot_natCast, setShot_komas_eq]
    rw [List.getElem?_set, if_pos rfl, if_pos hlen]
    show ((((p.komas.getD f emptyKoma).shots ++
        List.replicate (l + 1 - (p.komas.getD f emptyKoma).shots.length)
          none).set l (some s))[l]?).join = some s
    rw [List.getElem?_set, if_pos rfl, if_pos (by simp; omega)]
    rfl
  · intro f1 l1 hne s1 h
    obtain ⟨k, hk, hsl⟩ := extract p f1 l1 s1 h
    have hf1 : f1 < p.komas.length := by
      by_contra hc
      rw [List.getElem?_eq_none (by omega)] at hk
      exact absurd hk (by simp)
    rw [shot_natCast, setShot_komas_eq]
    by_cases hf : f1 = f
    · subst hf
      rcases hne with hne | hne
      · exact absurd rfl hne
      · have hkD : p.komas.getD f1 emptyKoma = k := by
          rw [List.getD_eq_getElem?_getD, hk]
          rfl
        rw [List.getElem?_set, if_pos rfl, if_pos hlen, hkD]
        show (((k.shots ++ List.replicate (l + 1 - k.shots.length) none).set l
          (some s))[l1]?).join = some s1
        have hl1 : l1 < k.shots.length := by
          by_contra hc
          rw [List.getElem?_eq_none (by omega)] at hsl
          exact absurd hsl (by simp)
        rw [List.getElem?_set, if_neg (fun hll => hne hll.symm),
          List.getElem?_append, if_pos hl1, hsl]
        rfl
    · rw [List.getElem?_set, if_neg (fun hff => hf hff.symm),
        List.getElem?_append, if_pos hf1, hk]
      show (k.shots[l1]?).join = some s1
      rw [hsl]
      rfl

/-- Claim C10 witness: on the one-shot project, writing a second shot at
frame 0 layer 1 makes shot(0, 1) return it while shot(0, 0) still returns the
original shot. -/
theorem setShot_then_shot_witness :
    shot (setShot oneShotProject 0 1 { testShot with jpg := [9] }) 0 1 =
      some { testShot with jpg := [9] }
  ∧ shot (setShot oneShotProject 0 1 { testShot with jpg := [9] }) 0 0 =
      some testShot :=
  have h := setShot_then_shot oneShotProject 0 1 { testShot with jpg := [9] }
  ⟨h.1, h.2 0 0 (Or.inr (by decide)) testShot (by decide)⟩

theorem jsIndex_eq {α : Type} (xs : List α) (i : Int) :
    jsIndex xs i = if 0 ≤ i then xs[i.toNat]? else none := by
  unfold jsIndex
  split
  · rename_i h
    rw [if_pos h.1, List.getElem?_eq_getElem h.2]
    simp [List.get_eq_getElem]
  · rename_i h
    by_cases h0 : 0 ≤ i
    · have hge : xs.length ≤ i.toNat := by
        by_contra hc
        exact h ⟨h0, by omega⟩
      rw [if_pos h0, List.getElem?_eq_none hge]
    · rw [if_neg h0]

/-- Claim C5 (amended): the shot accessor is total (never throws): it returns
null for a negative or too-large frame, the slot content for in-bounds
nonnegative indices (null for an empty slot), and null for a layer at or
beyond the slot count or below minus the slot count; a negative layer between
minus the slot count and -1 wraps around per Array.prototype.at and returns
the slot counted from the end instead of null. -/
theorem shot_access_amended (p : Project Blob) (frame layer : Int) :
    ((frame < 0 ∨ (p.komas.length : Int) ≤ frame) → shot p frame layer = none)
  ∧ (∀ k : Koma Blob, jsIndex p.komas frame = some k →
      (((k.shots.length : Int) ≤ layer ∨ layer < -(k.shots.length : Int)) →
        shot p frame layer = none)
      ∧ (∀ l : Nat, layer = (l : Int) → l < k.shots.length →
          shot p frame layer = k.shots.getD l none)
      ∧ (∀ m : Nat, layer = -(m : Int) → 0 < m → m ≤ k.shots.length →
          shot p frame layer =
            k.shots.getD (k.shots.length - m) none)) := by
  constructor
  · intro h
    unfold shot
    rw [jsIndex_eq]
    rcases h with h | h
    · rw [if_neg (by omega)]
    · by_cases h0 : 0 ≤ frame
      · rw [if_pos h0, List.getElem?_eq_none (by omega)]
      · rw [if_neg h0]
  · intro k hk
    have hshot : shot p frame layer = (jsAt k.shots layer).join := by
      unfold shot
      rw [hk]
    refine ⟨?_, ?_, ?_⟩
    · intro h
      rw [hshot]
      simp only [jsAt]
      rw [jsIndex_eq]
      rcases h with h | h
      · have hj : (if layer < 0 then (k.shots.length : Int) + layer else layer)
            = layer := if_neg (by omega)
        rw [hj, if_pos (by omega), List.getElem?_eq_none (by omega)]
        rfl
      · have hj : (if layer < 0 then (k.shots.length : Int) + layer else layer)
            = (k.shots.length : Int) + layer := if_pos (by omega)
        rw [hj, if_neg (by omega)]
        rfl
    · intro l hl hlen2
      subst hl
      rw [hshot]
      simp only [jsAt]
      rw [jsIndex_eq]
      have hj : (if (l : Int) < 0 then (k.shots.length : Int) + (l : Int)
          else (l : Int)) = (l : Int) := if_neg (by omega)
      rw [hj, if_pos (by omega),
        show (((l : Int))).toNat = l from Int.toNat_natCast l,
        List.getElem?_eq_getElem hlen2,
        List.getD_eq_getElem?_getD, List.getElem?_eq_getElem hlen2]
      rfl
    · intro m hl hm1 hm2
      subst hl
      rw [hshot]
      simp only [jsAt]
      rw [jsIndex_eq]
      have hj : (if -(m : Int) < 0 then (k.shots.length : Int) + -(m : Int)
          else -(m : Int)) = (k.shots.length : Int) + -(m : Int) :=
        if_pos (by omega)
      have hidx : ((k.shots.length : Int) + -(m : Int)).toNat =
          k.shots.length - m := by omega
      rw [hj, if_pos (by omega), hidx,
        List.getElem?_eq_getElem (by omega),
        List.getD_eq_getElem?_getD, List.getElem?_eq_getElem (by omega)]
      rfl

/-- Claim C5 amended witness: on the one-shot project, layer 5 and frame -2
give null, and layer -1 wraps to the last slot. -/
theorem shot_access_amended_witness :
    shot oneShotProject 0 5 = none
  ∧ shot oneShotProject (-2) 0 = none
  ∧ shot oneShotProject 0 (-1) =
      ([some testShot] : List (Option (Shot Blob))).getD 0 none :=
  have h1 := shot_access_amended oneShotProject 0 5
  have h2 := shot_access_amended oneShotProject (-2) 0
  have h3 := shot_access_amended oneShotProject 0 (-1)
  ⟨((h1.2 { shots := [some testShot] } (by decide)).1 (Or.inl (by decide))),
   h2.1 (Or.inl (by decide)),
   ((h3.2 { shots := [some testShot] } (by decide)).2.2 1 (by decide)
     (by decide) (by decide))⟩

/-- Claim C5 counterexample: with one koma holding one shot at layer 0, the
accessor at the out-of-bounds layer -1 wraps around per Array.prototype.at
and returns the shot rather than null, so out-of-bounds access does not
always return null as claimed. -/
theorem shot_negative_layer_counterexample :
    shot oneShotProject 0 (-1) = some testShot
  ∧ some testShot ≠ (none : Option (Shot Blob)) := by
  exact ⟨by decide, by decide⟩

theorem lodashClamp_spec (v lo hi : Rat) :
    lo ≤ lodashClamp v lo hi
  ∧ (lo ≤ hi → lodashClamp v lo hi ≤ hi)
  ∧ (lo ≤ v → v ≤ hi → lodashClamp v lo hi = v)
  ∧ (v < lo → lodashClamp v lo hi = lo)
  ∧ (lo ≤ hi → hi < v → lodashClamp v lo hi = hi) := by
  unfold lodashClamp
  refine ⟨?_, ?_, ?_, ?_, ?_⟩ <;> simp only [] <;> split_ifs <;> intros <;>
    first | rfl | linarith

/-- Claim C6 (amended): setInPoint(v) stores min(v, previewRange[1]) as the
in point, bounding it above by the out point but applying no lower clamp at
0; setOutPoint(v) stores v clamped to the interval from the in point to the
last index of the all-komas view. -/
theorem preview_range_clamp (p : Project Blob) (v : Rat) :
    (setInPoint p v).previewRange.2 = p.previewRange.2
  ∧ (setInPoint p v).previewRange.1 ≤ v
  ∧ (setInPoint p v).previewRange.1 ≤ p.previewRange.2
  ∧ ((setInPoint p v).previewRange.1 = v ∨
     (setInPoint p v).previewRange.1 = p.previewRange.2)
  ∧ (p.previewRange.2 ≤ v → (setInPoint p v).previewRange.1 = p.previewRange.2)
  ∧ (v ≤ p.previewRange.2 → (setInPoint p v).previewRange.1 = v)
  ∧ (setOutPoint p v).previewRange.1 = p.previewRange.1
  ∧ p.previewRange.1 ≤ (setOutPoint p v).previewRange.2
  ∧ (p.previewRange.1 ≤ ((allKomas p).length : Rat) - 1 →
      (setOutPoint p v).previewRange.2 ≤ ((allKomas p).length : Rat) - 1)
  ∧ (p.previewRange.1 ≤ v → v ≤ ((allKomas p).length : Rat) - 1 →
      (setOutPoint p v).previewRange.2 = v)
  ∧ (v < p.previewRange.1 →
      (setOutPoint p v).previewRange.2 = p.previewRange.1)
  ∧ (p.previewRange.1 ≤ ((allKomas p).length : Rat) - 1 →
      ((allKomas p).length : Rat) - 1 < v →
      (setOutPoint p v).previewRange.2 = ((allKomas p).length : Rat) - 1) :=
  ⟨rfl, min_le_left .., min_le_right .., min_choice ..,
   fun h => min_eq_right h, fun h => min_eq_left h, rfl,
   (lodashClamp_spec v p.previewRange.1 (((allKomas p).length : Rat) - 1)).1,
   fun h => (lodashClamp_spec v p.previewRange.1
     (((allKomas p).length : Rat) - 1)).2.1 h,
   fun h1 h2 => (lodashClamp_spec v p.previewRange.1
     (((allKomas p).length : Rat) - 1)).2.2.1 h1 h2,
   fun h => (lodashClamp_spec v p.previewRange.1
     (((allKomas p).length : Rat) - 1)).2.2.2.1 h,
   fun h1 h2 => (lodashClamp_spec v p.previewRange.1
     (((allKomas p).length : Rat) - 1)).2.2.2.2 h1 h2⟩

theorem emptyProject_last_index :
    ((allKomas emptyProject).length : Rat) - 1 = 1 := by
  have h : (allKomas emptyProject).length = 2 := by decide
  rw [h]
  norm_num

/-- Claim C6 amended witness: on the default project (preview range [0, 0],
last all-komas index 1), setInPoint(5) stores the out point 0, setInPoint(-1)
stores -1 itself, setOutPoint(0) stores the in-interval value 0,
setOutPoint(-5) is pinned to the in point 0, and setOutPoint(99) is pinned to
the last all-komas index. -/
theorem preview_range_clamp_witness :
    (setInPoint emptyProject 5).previewRange.1 = emptyProject.previewRange.2
  ∧ (setInPoint emptyProject (-1)).previewRange.1 = -1
  ∧ (setOutPoint emptyProject 0).previewRange.2 = 0
  ∧ (setOutPoint emptyProject (-5)).previewRange.2 =
      emptyProject.previewRange.1
  ∧ (setOutPoint emptyProject 99).previewRange.2 =
      ((allKomas emptyProject).length : Rat) - 1 :=
  have h5 := preview_range_clamp emptyProject 5
  have hm := preview_range_clamp emptyProject (-1)
  have h0 := preview_range_clamp emptyProject 0
  have hlow := preview_range_clamp emptyProject (-5)
  have hhigh := preview_range_clamp emptyProject 99
  ⟨h5.2.2.2.2.1 (by decide),
   hm.2.2.2.2.2.1 (by decide),
   h0.2.2.2.2.2.2.2.2.2.1 (by decide)
     (by rw [emptyProject_last_index]; decide),
   hlow.2.2.2.2.2.2.2.2.2.2.1 (by decide),
   hhigh.2.2.2.2.2.2.2.2.2.2.2
     (by rw [emptyProject_last_index]; decide)
     (by rw [emptyProject_last_index]; decide)⟩

/-- Claim C6 counterexample: setInPoint(-1) on the default project, whose
preview range is [0, 0], stores -1 rather than a value clamped below at 0, so
setInPoint does not clamp to the interval from 0 to the out point. -/
theorem set_in_point_counterexample :
    (setInPoint emptyProject (-1)).previewRange.1 = -1 ∧ (-1 : Rat) < 0 :=
  ⟨by decide, by decide⟩

/-- Claim C7 (amended): the derived all-komas view is the stored koma
sequence padded with empty komas one slot past the capture cursor: its length
is max(komas.length, captureShot.frame + 1) + 1 rather than
captureShot.frame + 1, it begins with the stored komas unchanged, every
padding entry is an empty koma, and the stored sequence itself is never
required to reach the capture cursor. -/
theorem all_komas_padding (p : Project Blob) :
    (allKomas p).length = max p.komas.length (p.captureShot.frame + 1) + 1
  ∧ p.captureShot.frame + 1 ≤ (allKomas p).length
  ∧ (allKomas p).take p.komas.length = p.komas
  ∧ (∀ i, p.komas.length ≤ i → (allKomas p).getD i emptyKoma = emptyKoma) := by
  refine ⟨?_, ?_, ?_, ?_⟩
  · simp only [allKomas, List.length_append, List.length_replicate]
    omega
  · simp only [allKomas, List.length_append, List.length_replicate]
    omega
  · simp only [allKomas]
    exact List.take_left ..
  · intro i hi
    simp only [allKomas]
    rw [getD_append_replicate, List.getD_eq_getElem?_getD,
      List.getElem?_eq_none hi]
    rfl

/-- Claim C7 witness: on the one-shot project (1 stored koma, cursor at
frame 0) the view has length 2 and its padding entry at index 1 is empty. -/
theorem all_komas_padding_witness :
    (allKomas oneShotProject).length = 2
  ∧ (allKomas oneShotProject).getD 1 emptyKoma = emptyKoma :=
  have h := all_komas_padding oneShotProject
  ⟨by rw [h.1]; decide, h.2.2.2 1 (by decide)⟩

/-- Claim C7 counterexample: on the default project the all-komas view has
length 2, although the stored sequence padded with empty komas up to length
captureShot.frame + 1 would have length 1, so the view is not merely padded
up to the capture cursor. -/
theorem all_komas_counterexample :
    (allKomas emptyProject).length = 2
  ∧ (emptyProject.komas ++ List.replicate
      (emptyProject.captureShot.frame + 1 - emptyProject.komas.length)
      emptyKoma).length = 1 :=
  ⟨by decide, by decide⟩

/-- Claim C9: the undoable sub-tree is exactly captureShot and komas: the
undoableData getter exposes precisely those two fields, and its setter, the
only write path used by useRefHistory when undo or redo restores a snapshot,
changes those two fields and leaves name, fps, previewRange, onionskin,
resolution, timeline, isLooping, ShootCondition, cameraConfigs,
visibleProperties, viewport, layers and audio unchanged. -/
theorem undoable_subtree_exact (p : Project Blob) (d : UndoableData) :
    undoableDataGet p = { captureShot := p.captureShot, komas := p.komas }
  ∧ (undoableDataSet p d).captureShot = d.captureShot
  ∧ (undoableDataSet p d).komas = d.komas
  ∧ (undoableDataSet p d).name = p.name
  ∧ (undoableDataSet p d).fps = p.fps
  ∧ (undoableDataSet p d).previewRange = p.previewRange
  ∧ (undoableDataSet p d).onionskin = p.onionskin
  ∧ (undoableDataSet p d).resolution = p.resolution
  ∧ (undoableDataSet p d).timeline = p.timeline
  ∧ (undoableDataSet p d).isLooping = p.isLooping
  ∧ (undoableDataSet p d).ShootCondition = p.ShootCondition
  ∧ (undoableDataSet p d).cameraConfigs = p.cameraConfigs
  ∧ (undoableDataSet p d).visibleProperties = p.visibleProperties
  ∧ (undoableDataSet p d).viewport = p.viewport
  ∧ (undoableDataSet p d).layers = p.layers
  ∧ (undoableDataSet p d).audio = p.audio :=
  ⟨rfl, rfl, rfl, rfl, rfl, rfl, rfl, rfl, rfl, rfl, rfl, rfl, rfl, rfl,
   rfl, rfl⟩

theorem debounceRun_append {ε : Type} (s : DebounceState)
    (a b : List (DebounceEvent ε)) :
    debounceRun s (a ++ b) = debounceRun (debounceRun s a) b :=
  List.foldl_append ..

theorem debounceRun_calls {ε : Type} (s : DebounceState) (n : Nat)
    (h : s.isExecuting = true) :
    debounceRun s (List.replicate (n + 1)
      (DebounceEvent.call : DebounceEvent ε)) =
      { s with willExecute := true } := by
  induction n generalizing s with
  | zero => simp [debounceRun, List.replicate, debounceStep, h]
  | succ m ih =>
      rw [List.replicate_succ]
      have hstep : debounceRun s (DebounceEvent.call ::
          List.replicate (m + 1) (DebounceEvent.call : DebounceEvent ε)) =
          debounceRun { s with willExecute := true }
            (List.replicate (m + 1) (DebounceEvent.call : DebounceEvent ε)) := by
        show debounceRun (debounceStep s DebounceEvent.call).1 _ = _
        simp [debounceStep, h]
      rw [hstep, ih { s with willExecute := true } h]

/-- Claim C2: while one save execution is in flight, any number n of further
save calls (n at least 1) coalesce so that completing the in-flight run
starts exactly one additional trailing execution, and completing that
trailing run starts no further one; in particular the schedule with calls at
t = 0, 1, 2 where the first run finishes after the last call performs exactly
2 underlying executions in total. -/
theorem save_coalescing (s : DebounceState) (n : Nat)
    (h1 : s.isExecuting = true) (hn : 1 ≤ n) :
    @debounceRun Unit s (List.replicate n DebounceEvent.call ++
        [DebounceEvent.complete (Except.ok ())]) =
      { isExecuting := true, willExecute := false,
        executions := s.executions + 1 }
  ∧ @debounceRun Unit s (List.replicate n DebounceEvent.call ++
        [DebounceEvent.complete (Except.ok ()),
         DebounceEvent.complete (Except.ok ())]) =
      { isExecuting := false, willExecute := false,
        executions := s.executions + 1 }
  ∧ @debounceRun Unit debounceInit
      [DebounceEvent.call, DebounceEvent.call, DebounceEvent.call,
       DebounceEvent.complete (Except.ok ()),
       DebounceEvent.complete (Except.ok ())] =
      { isExecuting := false, willExecute := false, executions := 2 } := by
  obtain ⟨m, rfl⟩ : ∃ m, n = m + 1 := ⟨n - 1, by omega⟩
  have hcalls := @debounceRun_calls Unit s m h1
  refine ⟨?_, ?_, ?_⟩
  · rw [debounceRun_append, hcalls]
    simp [debounceRun, debounceStep]
  · rw [debounceRun_append, hcalls]
    simp [debounceRun, debounceStep]
  · decide

theorem openRun_append (s : OpenState) (a b : List OpenEvent) :
    openRun s (a ++ b) = openRun (openRun s a) b :=
  List.foldl_append ..

theorem openRun_calls (s : OpenState) (n : Nat) (h : s.isExecuting = true) :
    openRun s (List.replicate n OpenEvent.call) = s := by
  induction n with
  | zero => rfl
  | succ m ih =>
      rw [List.replicate_succ]
      show openRun (openStep s OpenEvent.call) _ = _
      rw [show openStep s OpenEvent.call = s from by simp [openStep, h]]
      exact ih

/-- Claim C3: a call of the singleAsync-guarded open that arrives while an
open is executing returns immediately with no effect, so any burst of open
calls issued before the first one resolves performs exactly one tree
replacement and one history clear, and never two logical opens in flight. -/
theorem open_single_flight (s : OpenState) (n : Nat)
    (h : s.isExecuting = true) :
    openStep s OpenEvent.call = s
  ∧ openRun openInit (OpenEvent.call ::
      (List.replicate n OpenEvent.call ++ [OpenEvent.complete])) =
      { isExecuting := false, treeReplacements := 1, historyClears := 1 } := by
  constructor
  · simp [openStep, h]
  · show openRun (openStep openInit OpenEvent.call) _ = _
    rw [show openStep openInit OpenEvent.call =
        { isExecuting := true, treeReplacements := 1, historyClears := 1 }
      from by simp [openStep, openInit]]
    rw [openRun_append, openRun_calls _ n rfl]
    rfl

/-- Claim C3 witness: two open calls issued back-to-back before the first
resolves perform exactly one tree replacement and one history clear, and a
call on an executing guard is a no-op. -/
theorem open_single_flight_witness :
    openStep { isExecuting := true, treeReplacements := 0, historyClears := 0 }
      OpenEvent.call =
      { isExecuting := true, treeReplacements := 0, historyClears := 0 }
  ∧ openRun openInit [OpenEvent.call, OpenEvent.call, OpenEvent.complete] =
      { isExecuting := false, treeReplacements := 1, historyClears := 1 } :=
  have h := open_single_flight
    { isExecuting := true, treeReplacements := 0, historyClears := 0 } 1 rfl
  ⟨h.1, h.2⟩

/-- Claim C2 witness: with one run in flight (1 execution so far) and 2
suppressed calls, completing the run yields exactly one trailing execution (2
total), completing that yields no more, and the concrete t = 0, 1, 2 schedule
performs 2 executions in total. -/
theorem save_coalescing_witness :
    @debounceRun Unit ⟨true, false, 1⟩
      [DebounceEvent.call, DebounceEvent.call,
       DebounceEvent.complete (Except.ok ())] =
      { isExecuting := true, willExecute := false, executions := 2 }
  ∧ @debounceRun Unit ⟨true, false, 1⟩
      [DebounceEvent.call, DebounceEvent.call,
       DebounceEvent.complete (Except.ok ()),
       DebounceEvent.complete (Except.ok ())] =
      { isExecuting := false, willExecute := false, executions := 2 }
  ∧ @debounceRun Unit debounceInit
      [DebounceEvent.call, DebounceEvent.call, DebounceEvent.call,
       DebounceEvent.complete (Except.ok ()),
       DebounceEvent.complete (Except.ok ())] =
      { isExecuting := false, willExecute := false, executions := 2 } :=
  have h := save_coalescing ⟨true, false, 1⟩ 2 rfl (by decide)
  ⟨h.1, h.2.1, h.2.2⟩

/-- Claim C8: when the underlying save fails, the rejection reaches the
caller unmodified (the same error value), the finally block still releases
the isExecuting guard, and a subsequent save call is not suppressed: it
starts a fresh underlying execution. -/
theorem save_error_releases_guard (ε : Type) (e : ε) (s : DebounceState)
    (h : s.isExecuting = true) :
    debounceStep s (DebounceEvent.complete (Except.error e)) =
      ({ s with isExecuting := false }, some (Except.error e))
  ∧ debounceStep { s with isExecuting := false }
      (DebounceEvent.call : DebounceEvent ε) =
      ({ s with isExecuting := true, executions := s.executions + 1 }, none) := by
  exact ⟨rfl, rfl⟩

/-- Claim C8 witness: a failed run with error 7 propagates exactly error 7,
releases the guard, and the next call starts execution 2. -/
theorem save_error_releases_guard_witness :
    debounceStep { isExecuting := true, willExecute := false, executions := 1 }
      (DebounceEvent.complete (Except.error 7)) =
      ({ isExecuting := false, willExecute := false, executions := 1 },
       some (Except.error 7))
  ∧ debounceStep { isExecuting := false, willExecute := false, executions := 1 }
      (DebounceEvent.call : DebounceEvent Nat) =
      ({ isExecuting := true, willExecute := false, executions := 2 }, none) :=
  have h := save_error_releases_guard Nat 7
    { isExecuting := true, willExecute := false, executions := 1 } rfl
  ⟨h.1, h.2⟩

theorem natToDecimal_ne_nil (n : Nat) : natToDecimal n ≠ [] := by
  rw [natToDecimal]
  split
  · simp
  · simp

theorem natToDecimal_digits (n : Nat) :
    ∀ c ∈ natToDecimal n, c.isDigit = true := by
  have hdig : ∀ m : Nat, m < 10 → (Nat.digitChar m).isDigit = true := by decide
  induction n using Nat.strong_induction_on with
  | _ n ih =>
      rw [natToDecimal]
      split
      · rename_i h
        intro c hc
        simp only [List.mem_singleton] at hc
        subst hc
        exact hdig n h
      · rename_i h
        intro c hc
        rw [List.mem_append] at hc
        rcases hc with hc | hc
        · exact ih (n / 10) (Nat.div_lt_self (by omega) (by omega)) c hc
        · simp only [List.mem_singleton] at hc
          subst hc
          exact hdig (n % 10) (Nat.mod_lt _ (by omega))

theorem decVal_append_singleton (l : List Char) (c : Char) :
    decVal (l ++ [c]) = decVal l * 10 + (c.toNat - 48) := by
  unfold decVal
  rw [List.foldl_append]
  rfl

theorem decVal_natToDecimal (n : Nat) : decVal (natToDecimal n) = n := by
  induction n using Nat.strong_induction_on with
  | _ n ih =>
      rw [natToDecimal]
      split
      · rename_i h
        exact (by decide : ∀ m : Nat, m < 10 → decVal [Nat.digitChar m] = m) n h
      · rename_i h
        rw [decVal_append_singleton,
          ih (n / 10) (Nat.div_lt_self (by omega) (by omega))]
        rw [(by decide : ∀ m : Nat, m < 10 → (Nat.digitChar m).toNat - 48 = m)
          (n % 10) (Nat.mod_lt _ (by omega))]
        omega

theorem natToDecimal_inj (a b : Nat)
    (h : natToDecimal a = natToDecimal b) : a = b := by
  have h2 := congrArg decVal h
  rwa [decVal_natToDecimal, decVal_natToDecimal] at h2

theorem decVal_replicate_zero (k : Nat) (l : List Char) :
    decVal (List.replicate k '0' ++ l) = decVal l := by
  induction k with
  | zero => simp
  | succ m ih =>
      rw [List.replicate_succ, List.cons_append]
      unfold decVal
      rw [List.foldl_cons]
      have h0 : (0 * 10 + ('0'.toNat - 48)) = 0 := by decide
      rw [h0]
      exact ih

theorem pad4_data (n : Nat) :
    (padStart (natStr n) 4 '0').data =
      List.replicate (4 - (natToDecimal n).length) '0' ++ natToDecimal n := rfl

theorem pad4_inj (a b : Nat)
    (h : padStart (natStr a) 4 '0' = padStart (natStr b) 4 '0') : a = b := by
  have hd := congrArg String.data h
  rw [pad4_data, pad4_data] at hd
  have h2 := congrArg decVal hd
  rwa [decVal_replicate_zero, decVal_replicate_zero, decVal_natToDecimal,
    decVal_natToDecimal] at h2

theorem pad4_digits (n : Nat) :
    ∀ c ∈ (padStart (natStr n) 4 '0').data, c.isDigit = true := by
  rw [pad4_data]
  intro c hc
  rw [List.mem_append] at hc
  rcases hc with hc | hc
  · rw [List.eq_of_mem_replicate hc]
    decide
  · exact natToDecimal_digits n c hc

theorem pad4_data_ne_nil (n : Nat) : (padStart (natStr n) 4 '0').data ≠ [] := by
  rw [pad4_data]
  simp [natToDecimal_ne_nil]

theorem digit_split (a1 : List Char) :
    ∀ (a2 r1 r2 : List Char),
      (∀ c ∈ a1, c.isDigit = true) → (∀ c ∈ a2, c.isDigit = true) →
      (∀ c, r1.head? = some c → c.isDigit = false) →
      (∀ c, r2.head? = some c → c.isDigit = false) →
      a1 ++ r1 = a2 ++ r2 → a1 = a2 ∧ r1 = r2 := by
  induction a1 with
  | nil =>
      intro a2 r1 r2 h1 h2 h3 h4 h
      cases a2 with
      | nil => exact ⟨rfl, h⟩
      | cons c t =>
          simp only [List.nil_append, List.cons_append] at h
          have hc := h3 c (by rw [h]; rfl)
          have hc2 := h2 c (by simp)
          rw [hc] at hc2
          exact absurd hc2 (by decide)
  | cons c1 t1 ih =>
      intro a2 r1 r2 h1 h2 h3 h4 h
      cases a2 with
      | nil =>
          simp only [List.cons_append, List.nil_append] at h
          have hc := h4 c1 (by rw [← h]; rfl)
          have hc2 := h1 c1 (by simp)
          rw [hc] at hc2
          exact absurd hc2 (by decide)
      | cons c2 t2 =>
          simp only [List.cons_append, List.cons.injEq] at h
          obtain ⟨hc, ht⟩ := h
          subst hc
          obtain ⟨he, hr⟩ := ih t2 r1 r2 (fun c hc => h1 c (by simp [hc]))
            (fun c hc => h2 c (by simp [hc])) h3 h4 ht
          exact ⟨by rw [he], hr⟩

theorem data_marker_lit : ("marker_" : String).data =
    ['m', 'a', 'r', 'k', 'e', 'r', '_'] := rfl

theorem data_wav_lit : (".wav" : String).data = ['.', 'w', 'a', 'v'] := rfl

theorem data_audio_lit : ("audio.wav" : String).data =
    ['a', 'u', 'd', 'i', 'o', '.', 'w', 'a', 'v'] := rfl

theorem data_layer_lit : ("layer" : String).data =
    ['l', 'a', 'y', 'e', 'r'] := rfl

theorem data_backup_lit : ("backup" : String).data =
    ['b', 'a', 'c', 'k', 'u', 'p'] := rfl

theorem data_eq_lit : ("=" : String).data = ['='] := rfl

theorem data_lv_lit : ("_lv" : String).data = ['_', 'l', 'v'] := rfl

theorem data_us_lit : ("_" : String).data = ['_'] := rfl

theorem data_dot_lit : ("." : String).data = ['.'] := rfl

theorem data_jpg_lit : ("jpg" : String).data = ['j', 'p', 'g'] := rfl

theorem data_dng_lit : ("dng" : String).data = ['d', 'n', 'g'] := rfl

theorem data_natStr (n : Nat) : (natStr n).data = natToDecimal n := rfl

theorem data_empty_lit : ("" : String).data = [] := rfl

theorem image_tail_head_not_digit (p : ShotPart) (f : Nat) (c : Char)
    (h : ((if p = ShotPart.lv then "_lv" else "").data ++
      ('_' :: ((padStart (natStr f) 4 '0').data ++
        ('.' :: (if p = ShotPart.raw then "dng" else "jpg").data)))).head? =
      some c) :
    c.isDigit = false := by
  cases p <;>
    simp only [reduceCtorEq, reduceIte, data_lv_lit, data_empty_lit,
      List.cons_append, List.nil_append, List.head?,
      Option.some.injEq] at h <;>
    rw [← h] <;> decide

theorem image_tail_inj (p1 p2 : ShotPart) (f1 f2 : Nat)
    (h : (if p1 = ShotPart.lv then "_lv" else "").data ++
      ('_' :: ((padStart (natStr f1) 4 '0').data ++
        ('.' :: (if p1 = ShotPart.raw then "dng" else "jpg").data))) =
      (if p2 = ShotPart.lv then "_lv" else "").data ++
      ('_' :: ((padStart (natStr f2) 4 '0').data ++
        ('.' :: (if p2 = ShotPart.raw then "dng" else "jpg").data)))) :
    p1 = p2 ∧ f1 = f2 := by
  have hsplit : ∀ (a b : Nat) (e1 e2 : List Char),
      (padStart (natStr a) 4 '0').data ++ ('.' :: e1) =
        (padStart (natStr b) 4 '0').data ++ ('.' :: e2) →
      a = b ∧ e1 = e2 := by
    intro a b e1 e2 he
    obtain ⟨hp, ht⟩ := digit_split _ _ _ _ (pad4_digits a) (pad4_digits b)
      (by intro c hc
          simp only [List.head?, Option.some.injEq] at hc
          subst hc
          decide)
      (by intro c hc
          simp only [List.head?, Option.some.injEq] at hc
          subst hc
          decide) he
    refine ⟨pad4_inj a b (String.ext hp), ?_⟩
    simpa using ht
  have hclash1 : ∀ (a : Nat) (x y : List Char),
      'l' :: 'v' :: '_' :: x = (padStart (natStr a) 4 '0').data ++ y → False := by
    intro a x y he
    obtain ⟨d, l, hdl⟩ := List.exists_cons_of_ne_nil (pad4_data_ne_nil a)
    rw [hdl] at he
    simp only [List.cons_append, List.cons.injEq] at he
    have hd : d.isDigit = true := pad4_digits a d (by rw [hdl]; simp)
    rw [← he.1] at hd
    exact absurd hd (by decide)
  cases p1 <;> cases p2 <;>
    simp only [reduceCtorEq, reduceIte, data_lv_lit, data_empty_lit,
      data_jpg_lit, data_dng_lit, List.cons_append, List.nil_append,
      List.cons.injEq, true_and] at h
  · exact ⟨rfl, (hsplit f1 f2 _ _ h).1⟩
  · exact (hclash1 f2 _ _ h).elim
  · exact (hclash1 f2 _ _ h).elim
  · exact (hclash1 f1 _ _ h.symm).elim
  · exact ⟨rfl, (hsplit f1 f2 _ _ h).1⟩
  · exact absurd (hsplit f1 f2 _ _ h).2 (by simp)
  · exact (hclash1 f1 _ _ h.symm).elim
  · exact absurd (hsplit f1 f2 _ _ h).2 (by simp)
  · exact ⟨rfl, (hsplit f1 f2 _ _ h).1⟩

theorem encode_inj (pname : String) (t1 t2 : FileTag)
    (h : FileTag.encode pname t1 = FileTag.encode pname t2) : t1 = t2 := by
  have hd := congrArg String.data h
  cases t1 with
  | marker k1 =>
      cases t2 with
      | marker k2 =>
          simp [FileTag.encode, String.data_append, List.append_assoc,
            data_marker_lit, data_wav_lit, List.cons_append,
            List.nil_append] at hd
          rw [String.ext hd]
      | audio =>
          simp [FileTag.encode, String.data_append, List.append_assoc,
            data_marker_lit, data_wav_lit, data_audio_lit, List.cons_append,
            List.nil_append] at hd
      | image bk2 i2 p2 f2 =>
          exfalso
          have hr := congrArg List.reverse hd
          cases p2 <;>
            simp [FileTag.encode, String.data_append, List.append_assoc,
              List.reverse_append, data_marker_lit, data_wav_lit, data_us_lit,
              data_eq_lit, data_dot_lit, data_natStr, data_layer_lit,
              data_backup_lit, data_lv_lit, data_empty_lit, data_jpg_lit,
              data_dng_lit, reduceCtorEq, reduceIte, List.cons_append,
              List.nil_append] at hr
  | audio =>
      cases t2 with
      | marker k2 =>
          simp [FileTag.encode, String.data_append, List.append_assoc,
            data_marker_lit, data_wav_lit, data_audio_lit, List.cons_append,
            List.nil_append] at hd
      | audio => rfl
      | image bk2 i2 p2 f2 =>
          exfalso
          have hr := congrArg List.reverse hd
          cases p2 <;>
            simp [FileTag.encode, String.data_append, List.append_assoc,
              List.reverse_append, data_audio_lit, data_us_lit,
              data_eq_lit, data_dot_lit, data_natStr, data_layer_lit,
              data_backup_lit, data_lv_lit, data_empty_lit, data_jpg_lit,
              data_dng_lit, reduceCtorEq, reduceIte, List.cons_append,
              List.nil_append] at hr
  | image bk1 i1 p1 f1 =>
      cases t2 with
      | marker k2 =>
          exfalso
          have hr := congrArg List.reverse hd
          cases p1 <;>
            simp [FileTag.encode, String.data_append, List.append_assoc,
              List.reverse_append, data_marker_lit, data_wav_lit, data_us_lit,
              data_eq_lit, data_dot_lit, data_natStr, data_layer_lit,
              data_backup_lit, data_lv_lit, data_empty_lit, data_jpg_lit,
              data_dng_lit, reduceCtorEq, reduceIte, List.cons_append,
              List.nil_append] at hr
      | audio =>
          exfalso
          have hr := congrArg List.reverse hd
          cases p1 <;>
            simp [FileTag.encode, String.data_append, List.append_assoc,
              List.reverse_append, data_audio_lit, data_us_lit,
              data_eq_lit, data_dot_lit, data_natStr, data_layer_lit,
              data_backup_lit, data_lv_lit, data_empty_lit, data_jpg_lit,
              data_dng_lit, reduceCtorEq, reduceIte, List.cons_append,
              List.nil_append] at hr
      | image bk2 i2 p2 f2 =>
          cases bk1 <;> cases bk2 <;>
            simp [FileTag.encode, String.data_append, List.append_assoc,
              data_us_lit, data_eq_lit, data_dot_lit, data_natStr,
              data_layer_lit, data_backup_lit, reduceIte, List.cons_append,
              List.nil_append] at hd
          · obtain ⟨hnd, hT⟩ := digit_split _ _ _ _ (natToDecimal_digits i1)
              (natToDecimal_digits i2)
              (fun c hc => image_tail_head_not_digit p1 f1 c hc)
              (fun c hc => image_tail_head_not_digit p2 f2 c hc) hd
            obtain ⟨hp, hf⟩ := image_tail_inj p1 p2 f1 f2 hT
            rw [natToDecimal_inj i1 i2 hnd, hp, hf]
          · obtain ⟨hnd, hT⟩ := digit_split _ _ _ _ (natToDecimal_digits i1)
              (natToDecimal_digits i2)
              (fun c hc => image_tail_head_not_digit p1 f1 c hc)
              (fun c hc => image_tail_head_not_digit p2 f2 c hc) hd
            obtain ⟨hp, hf⟩ := image_tail_inj p1 p2 f1 f2 hT
            rw [natToDecimal_inj i1 i2 hnd, hp, hf]

theorem saveShot_writes_fst (pname : String) (s : Shot Blob) (frame idx : Nat)
    (bk : Bool) :
    ((saveShot pname s frame
      [((if bk then "backup" else "layer"), idx)]).2.map Prod.fst) =
      (shotTags bk idx frame s.raw.isSome).map (FileTag.encode pname) := by
  cases hr : s.raw with
  | none =>
      simp only [saveShot, saveImageSequence, blobSave, hr, shotTags,
        Option.isSome_none, Bool.false_eq_true, if_false, List.append_nil,
        List.nil_append, List.cons_append, List.map_cons, List.map_nil]
      congr 1
      · apply String.ext
        simp [FileTag.encode, queryString, String.intercalate,
          String.intercalate.go, String.data_append, List.append_assoc,
          reduceCtorEq, reduceIte, data_us_lit, data_eq_lit, data_dot_lit,
          data_lv_lit, data_empty_lit, data_natStr, List.cons_append,
          List.nil_append]
      · congr 1
        apply String.ext
        simp [FileTag.encode, queryString, String.intercalate,
          String.intercalate.go, String.data_append, List.append_assoc,
          reduceCtorEq, reduceIte, data_us_lit, data_eq_lit, data_dot_lit,
          data_lv_lit, data_empty_lit, data_natStr, List.cons_append,
          List.nil_append]
  | some r =>
      simp only [saveShot, saveImageSequence, blobSave, hr, shotTags,
        Option.isSome_some, if_true, List.append_nil, List.nil_append,
        List.cons_append, List.map_cons, List.map_nil]
      congr 1
      · apply String.ext
        simp [FileTag.encode, queryString, String.intercalate,
          String.intercalate.go, String.data_append, List.append_assoc,
          reduceCtorEq, reduceIte, data_us_lit, data_eq_lit, data_dot_lit,
          data_lv_lit, data_empty_lit, data_natStr, List.cons_append,
          List.nil_append]
      · congr 1
        · apply String.ext
          simp [FileTag.encode, queryString, String.intercalate,
            String.intercalate.go, String.data_append, List.append_assoc,
            reduceCtorEq, reduceIte, data_us_lit, data_eq_lit, data_dot_lit,
            data_lv_lit, data_empty_lit, data_natStr, List.cons_append,
            List.nil_append]
        · congr 1
          apply String.ext
          simp [FileTag.encode, queryString, String.intercalate,
            String.intercalate.go, String.data_append, List.append_assoc,
            reduceCtorEq, reduceIte, data_us_lit, data_eq_lit, data_dot_lit,
            data_lv_lit, data_empty_lit, data_natStr, List.cons_append,
            List.nil_append]

theorem saveShot_writes_fst_layer (pname : String) (s : Shot Blob)
    (frame idx : Nat) :
    ((saveShot pname s frame [("layer", idx)]).2.map Prod.fst) =
      (shotTags false idx frame s.raw.isSome).map (FileTag.encode pname) := by
  have h := saveShot_writes_fst pname s frame idx false
  simpa using h

theorem saveShot_writes_fst_backup (pname : String) (s : Shot Blob)
    (frame idx : Nat) :
    ((saveShot pname s frame [("backup", idx)]).2.map Prod.fst) =
      (shotTags true idx frame s.raw.isSome).map (FileTag.encode pname) := by
  have h := saveShot_writes_fst pname s frame idx true
  simpa using h

theorem flattenShots_writes_fst (pname : String) (frame : Nat)
    (shots : List (Option (Shot Blob))) : ∀ l0 : Nat,
    (flattenShots pname frame shots l0).2.map Prod.fst =
      (shotsTags frame shots l0).map (FileTag.encode pname) := by
  induction shots with
  | nil => intro l0; rfl
  | cons hd tail ih =>
      intro l0
      cases hd with
      | none =>
          simp only [flattenShots, shotsTags]
          exact ih (l0 + 1)
      | some s =>
          simp only [flattenShots, shotsTags, List.map_append]
          rw [ih (l0 + 1), saveShot_writes_fst_layer]

theorem flattenBackups_writes_fst (pname : String) (frame : Nat)
    (bs : List (Shot Blob)) : ∀ i0 : Nat,
    (flattenBackups pname frame bs i0).2.map Prod.fst =
      (backupsTags frame bs i0).map (FileTag.encode pname) := by
  induction bs with
  | nil => intro i0; rfl
  | cons s tail ih =>
      intro i0
      simp only [flattenBackups, backupsTags, List.map_append]
      rw [ih (i0 + 1), saveShot_writes_fst_backup]

theorem flattenKoma_writes_fst (pname : String) (frame : Nat) (k : Koma Blob) :
    (flattenKoma pname frame k).2.map Prod.fst =
      (komaTags frame k).map (FileTag.encode pname) := by
  cases hb : k.backupShots with
  | none =>
      simp only [flattenKoma, komaTags, hb, List.append_nil, List.map_append]
      rw [flattenShots_writes_fst]
  | some bs =>
      simp only [flattenKoma, komaTags, hb, List.map_append]
      rw [flattenShots_writes_fst, flattenBackups_writes_fst]

theorem flattenKomas_writes_fst (pname : String) (ks : List (Koma Blob)) :
    ∀ f0 : Nat,
    (flattenKomas pname ks f0).2.map Prod.fst =
      (komasTags ks f0).map (FileTag.encode pname) := by
  induction ks with
  | nil => intro f0; rfl
  | cons k tail ih =>
      intro f0
      simp only [flattenKomas, komasTags, List.map_append]
      rw [ih (f0 + 1), flattenKoma_writes_fst]

theorem flattenMarkerSounds_writes_fst (pname : String)
    (ms : List (String × Blob)) :
    (flattenMarkerSounds ms).2.map Prod.fst =
      (ms.map fun kv => FileTag.marker kv.1).map (FileTag.encode pname) := by
  induction ms with
  | nil => rfl
  | cons kv tail ih =>
      simp only [flattenMarkerSounds, blobSave, List.map_cons,
        List.cons_append, List.nil_append]
      rw [ih]
      rfl

theorem flattenAudio_writes_fst (pname : String) (a : Audio Blob) :
    (flattenAudio a).2.map Prod.fst =
      (match a.src with
       | none => ([] : List FileTag)
       | some _ => [FileTag.audio]).map (FileTag.encode pname) := by
  cases ha : a.src <;> simp [flattenAudio, blobSave, ha, FileTag.encode]

theorem flattenProject_writes_fst (p : Project Blob) :
    (flattenProject p).2.map Prod.fst =
      (projectTags p).map (FileTag.encode p.name) := by
  simp only [flattenProject, projectTags, List.map_append]
  rw [flattenMarkerSounds_writes_fst p.name, flattenKomas_writes_fst,
    flattenAudio_writes_fst p.name]

theorem shotTags_mem (bk : Bool) (idx frame : Nat) (hr : Bool) (t : FileTag)
    (ht : t ∈ shotTags bk idx frame hr) :
    t.isBackup = bk ∧ t.idxOf = idx ∧ t.frameOf = frame ∧
      t.isImage = true := by
  cases hr <;> simp [shotTags] at ht
  · rcases ht with h | h <;> subst h <;> exact ⟨rfl, rfl, rfl, rfl⟩
  · rcases ht with h | h | h <;> subst h <;> exact ⟨rfl, rfl, rfl, rfl⟩

theorem shotTags_nodup (bk : Bool) (idx frame : Nat) (hr : Bool) :
    (shotTags bk idx frame hr).Nodup := by
  cases hr <;> simp [shotTags]

theorem shotsTags_mem (frame : Nat) (shots : List (Option (Shot Blob))) :
    ∀ (l0 : Nat) (t : FileTag), t ∈ shotsTags frame shots l0 →
      t.isBackup = false ∧ l0 ≤ t.idxOf ∧ t.frameOf = frame ∧
        t.isImage = true := by
  induction shots with
  | nil =>
      intro l0 t ht
      simp [shotsTags] at ht
  | cons hd tail ih =>
      intro l0 t ht
      cases hd with
      | none =>
          have h := ih (l0 + 1) t (by simpa [shotsTags] using ht)
          exact ⟨h.1, by omega, h.2.2⟩
      | some s =>
          simp only [shotsTags] at ht
          rw [List.mem_append] at ht
          rcases ht with h | h
          · have h2 := shotTags_mem false l0 frame s.raw.isSome t h
            exact ⟨h2.1, by omega, h2.2.2⟩
          · have h2 := ih (l0 + 1) t h
            exact ⟨h2.1, by omega, h2.2.2⟩

theorem shotsTags_nodup (frame : Nat) (shots : List (Option (Shot Blob))) :
    ∀ l0 : Nat, (shotsTags frame shots l0).Nodup := by
  induction shots with
  | nil => intro l0; simp [shotsTags]
  | cons hd tail ih =>
      intro l0
      cases hd with
      | none => simpa [shotsTags] using ih (l0 + 1)
      | some s =>
          simp only [shotsTags]
          rw [List.nodup_append]
          refine ⟨shotTags_nodup .., ih (l0 + 1), ?_⟩
          intro t ht1 ht2
          have h1 := shotTags_mem false l0 frame s.raw.isSome t ht1
          have h2 := shotsTags_mem frame tail (l0 + 1) t ht2
          omega

theorem backupsTags_mem (frame : Nat) (bs : List (Shot Blob)) :
    ∀ (i0 : Nat) (t : FileTag), t ∈ backupsTags frame bs i0 →
      t.isBackup = true ∧ i0 ≤ t.idxOf ∧ t.frameOf = frame ∧
        t.isImage = true := by
  induction bs with
  | nil =>
      intro i0 t ht
      simp [backupsTags] at ht
  | cons s tail ih =>
      intro i0 t ht
      simp only [backupsTags] at ht
      rw [List.mem_append] at ht
      rcases ht with h | h
      · have h2 := shotTags_mem true i0 frame s.raw.isSome t h
        exact ⟨h2.1, by omega, h2.2.2⟩
      · have h2 := ih (i0 + 1) t h
        exact ⟨h2.1, by omega, h2.2.2⟩

theorem backupsTags_nodup (frame : Nat) (bs : List (Shot Blob)) :
    ∀ i0 : Nat, (backupsTags frame bs i0).Nodup := by
  induction bs with
  | nil => intro i0; simp [backupsTags]
  | cons s tail ih =>
      intro i0
      simp only [backupsTags]
      rw [List.nodup_append]
      refine ⟨shotTags_nodup .., ih (i0 + 1), ?_⟩
      intro t ht1 ht2
      have h1 := shotTags_mem true i0 frame s.raw.isSome t ht1
      have h2 := backupsTags_mem frame tail (i0 + 1) t ht2
      omega

theorem komaTags_mem (frame : Nat) (k : Koma Blob) (t : FileTag)
    (ht : t ∈ komaTags frame k) : t.frameOf = frame ∧ t.isImage = true := by
  cases hb : k.backupShots with
  | none =>
      simp only [komaTags, hb, List.append_nil] at ht
      have h := shotsTags_mem frame k.shots 0 t ht
      exact ⟨h.2.2.1, h.2.2.2⟩
  | some bs =>
      simp only [komaTags, hb] at ht
      rw [List.mem_append] at ht
      rcases ht with h | h
      · have h2 := shotsTags_mem frame k.shots 0 t h
        exact ⟨h2.2.2.1, h2.2.2.2⟩
      · have h2 := backupsTags_mem frame bs 0 t h
        exact ⟨h2.2.2.1, h2.2.2.2⟩

theorem komaTags_nodup (frame : Nat) (k : Koma Blob) :
    (komaTags frame k).Nodup := by
  cases hb : k.backupShots with
  | none =>
      simp only [komaTags, hb, List.append_nil]
      exact shotsTags_nodup frame k.shots 0
  | some bs =>
      simp only [komaTags, hb]
      rw [List.nodup_append]
      refine ⟨shotsTags_nodup frame k.shots 0, backupsTags_nodup frame bs 0, ?_⟩
      intro t ht1 ht2
      have h1 := shotsTags_mem frame k.shots 0 t ht1
      have h2 := backupsTags_mem frame bs 0 t ht2
      rw [h1.1] at h2
      exact absurd h2.1 (by decide)

theorem komasTags_mem (ks : List (Koma Blob)) :
    ∀ (f0 : Nat) (t : FileTag), t ∈ komasTags ks f0 →
      f0 ≤ t.frameOf ∧ t.isImage = true := by
  induction ks with
  | nil =>
      intro f0 t ht
      simp [komasTags] at ht
  | cons k tail ih =>
      intro f0 t ht
      simp only [komasTags] at ht
      rw [List.mem_append] at ht
      rcases ht with h | h
      · have h2 := komaTags_mem f0 k t h
        exact ⟨by omega, h2.2⟩
      · have h2 := ih (f0 + 1) t h
        exact ⟨by omega, h2.2⟩

theorem komasTags_nodup (ks : List (Koma Blob)) :
    ∀ f0 : Nat, (komasTags ks f0).Nodup := by
  induction ks with
  | nil => intro f0; simp [komasTags]
  | cons k tail ih =>
      intro f0
      simp only [komasTags]
      rw [List.nodup_append]
      refine ⟨komaTags_nodup f0 k, ih (f0 + 1), ?_⟩
      intro t ht1 ht2
      have h1 := komaTags_mem f0 k t ht1
      have h2 := komasTags_mem tail (f0 + 1) t ht2
      omega

theorem projectTags_nodup (p : Project Blob)
    (hmk : (p.timeline.markerSounds.map Prod.fst).Nodup) :
    (projectTags p).Nodup := by
  have hmarker : (p.timeline.markerSounds.map fun kv =>
      FileTag.marker kv.1).Nodup := by
    have h1 : (p.timeline.markerSounds.map fun kv => FileTag.marker kv.1) =
        (p.timeline.markerSounds.map Prod.fst).map FileTag.marker := by
      rw [List.map_map]
      rfl
    rw [h1]
    exact hmk.map (fun a b hab => by simpa using hab)
  have hmarker_mem : ∀ t ∈ (p.timeline.markerSounds.map fun kv =>
      FileTag.marker kv.1), t.isImage = false ∧ t ≠ FileTag.audio := by
    intro t ht
    rw [List.mem_map] at ht
    obtain ⟨kv, _, hkv⟩ := ht
    subst hkv
    exact ⟨rfl, by simp⟩
  have haudio_mem : ∀ t ∈ (match p.audio.src with
      | none => ([] : List FileTag)
      | some _ => [FileTag.audio]), t = FileTag.audio := by
    intro t ht
    cases ha : p.audio.src <;> rw [ha] at ht <;> simpa using ht
  simp only [projectTags]
  rw [List.nodup_append, List.nodup_append]
  refine ⟨⟨hmarker, komasTags_nodup p.komas 0, ?_⟩, ?_, ?_⟩
  · intro t ht1 ht2
    have h1 := hmarker_mem t ht1
    have h2 := komasTags_mem p.komas 0 t ht2
    rw [h1.1] at h2
    exact absurd h2.2 (by decide)
  · cases ha : p.audio.src <;> simp
  · intro t ht1 ht2
    rw [List.mem_append] at ht1
    have h2 := haudio_mem t ht2
    rcases ht1 with h | h
    · exact absurd h2 (hmarker_mem t h).2
    · have h3 := komasTags_mem p.komas 0 t h
      rw [h2] at h3
      exact absurd h3.2 (by decide)

theorem flatten_names_nodup (p : Project Blob)
    (hmk : (p.timeline.markerSounds.map Prod.fst).Nodup) :
    ((flattenProject p).2.map Prod.fst).Nodup := by
  rw [flattenProject_writes_fst]
  exact (projectTags_nodup p hmk).map (fun a b hab => encode_inj p.name a b hab)

theorem writeAll_eq (ws : Writes) : ∀ st : Storage,
    writeAll st ws = ws.reverse ++ st := by
  induction ws with
  | nil => intro st; rfl
  | cons w tail ih =>
      intro st
      show writeAll ((w.1, w.2) :: st) tail = _
      rw [ih, List.reverse_cons, List.append_assoc]
      rfl

theorem lookup_of_mem_nodup (f : String) (b : Blob) :
    ∀ ws : Writes, (f, b) ∈ ws → (ws.map Prod.fst).Nodup →
      List.lookup f ws = some b := by
  intro ws
  induction ws with
  | nil =>
      intro hmem _
      cases hmem
  | cons w tail ih =>
      intro hmem hnd
      obtain ⟨k, v⟩ := w
      rw [List.mem_cons] at hmem
      rw [List.map_cons, List.nodup_cons] at hnd
      rcases hmem with h | h
      · obtain ⟨h1, h2⟩ := Prod.mk.injEq .. ▸ h
        subst h1
        subst h2
        simp [List.lookup]
      · have hne : ¬ (f = k) := by
          intro he
          subst he
          have hm : f ∈ List.map Prod.fst tail :=
            List.mem_map_of_mem Prod.fst h
          exact hnd.1 hm
        have hbeq : (f == k) = false := by
          simp [hne]
        have hstep : List.lookup f ((k, v) :: tail) = List.lookup f tail := by
          simp [List.lookup, hbeq]
        rw [hstep]
        exact ih h hnd.2

theorem lookup_append_left (f : String) (b : Blob) :
    ∀ a st : Storage, List.lookup f a = some b →
      List.lookup f (a ++ st) = some b := by
  intro a
  induction a with
  | nil =>
      intro st h
      cases h
  | cons w tail ih =>
      intro st h
      obtain ⟨k, v⟩ := w
      rw [List.cons_append]
      by_cases he : f = k
      · subst he
        simp [List.lookup] at h ⊢
        exact h
      · have hbeq : (f == k) = false := by
          simp [he]
        have h1 : List.lookup f ((k, v) :: tail) = List.lookup f tail := by
          simp [List.lookup, hbeq]
        have h2 : List.lookup f ((k, v) :: (tail ++ st)) =
            List.lookup f (tail ++ st) := by
          simp [List.lookup, hbeq]
        rw [h1] at h
        rw [h2]
        exact ih st h

theorem storageRead_writeAll (st : Storage) (ws : Writes) (f : String)
    (b : Blob) (hmem : (f, b) ∈ ws) (hnd : (ws.map Prod.fst).Nodup) :
    storageRead (writeAll st ws) f = some b := by
  show List.lookup f (writeAll st ws) = some b
  rw [writeAll_eq]
  apply lookup_append_left
  apply lookup_of_mem_nodup
  · rw [List.mem_reverse]
    exact hmem
  · rw [List.map_reverse]
    exact List.nodup_reverse.mpr hnd

theorem openShot_build (st : Storage) (cc : CameraConfigs)
    (tr : Option Tracker) (dmx : Option (List Rat)) (stt cd : Option Rat)
    (lv jpg : Blob) (fl fj : String)
    (hl : storageRead st fl = some lv) (hj : storageRead st fj = some jpg) :
    openShot st ⟨fl, fj, none, cc, tr, dmx, stt, cd⟩ =
      some ⟨lv, jpg, none, cc, tr, dmx, stt, cd⟩ := by
  simp [openShot, blobOpen, hl, hj]

theorem openShot_build_raw (st : Storage) (cc : CameraConfigs)
    (tr : Option Tracker) (dmx : Option (List Rat)) (stt cd : Option Rat)
    (lv jpg rw : Blob) (fl fj fr : String)
    (hl : storageRead st fl = some lv) (hj : storageRead st fj = some jpg)
    (hraw : storageRead st fr = some rw) :
    openShot st ⟨fl, fj, some fr, cc, tr, dmx, stt, cd⟩ =
      some ⟨lv, jpg, some rw, cc, tr, dmx, stt, cd⟩ := by
  simp [openShot, blobOpen, hl, hj, hraw]

theorem openShot_saveShot (st : Storage) (pname : String) (s : Shot Blob)
    (frame : Nat) (q : List (String × Nat))
    (H : ∀ w ∈ (saveShot pname s frame q).2, storageRead st w.1 = some w.2) :
    openShot st (saveShot pname s frame q).1 = some s := by
  obtain ⟨lv, jpg, raw, cc, tr, dmx, stt, cd⟩ := s
  cases raw with
  | none =>
      simp only [saveShot, saveImageSequence, blobSave, List.append_nil,
        List.singleton_append] at H ⊢
      simp only [List.forall_mem_cons] at H
      exact openShot_build st cc tr dmx stt cd lv jpg _ _ H.1 H.2.1
  | some r =>
      simp only [saveShot, saveImageSequence, blobSave, List.append_nil,
        List.singleton_append, List.cons_append, List.nil_append] at H ⊢
      simp only [List.forall_mem_cons] at H
      exact openShot_build_raw st cc tr dmx stt cd lv jpg r _ _ _
        H.1 H.2.1 H.2.2.1

theorem openShots_flattenShots (st : Storage) (pname : String) (frame : Nat)
    (shots : List (Option (Shot Blob))) : ∀ l0 : Nat,
    (∀ w ∈ (flattenShots pname frame shots l0).2,
      storageRead st w.1 = some w.2) →
    openShots st (flattenShots pname frame shots l0).1 = some shots := by
  induction shots with
  | nil =>
      intro l0 H
      rfl
  | cons hd tail ih =>
      intro l0 H
      cases hd with
      | none =>
          simp only [flattenShots] at H ⊢
          simp only [openShots]
          rw [ih (l0 + 1) H]
          rfl
      | some s =>
          simp only [flattenShots] at H ⊢
          have H1 : ∀ w ∈ (saveShot pname s frame [("layer", l0)]).2,
              storageRead st w.1 = some w.2 :=
            fun w hw => H w (List.mem_append_left _ hw)
          have H2 : ∀ w ∈ (flattenShots pname frame tail (l0 + 1)).2,
              storageRead st w.1 = some w.2 :=
            fun w hw => H w (List.mem_append_right _ hw)
          simp only [openShots]
          rw [openShot_saveShot st pname s frame _ H1, ih (l0 + 1) H2]
          rfl

theorem openBackups_flattenBackups (st : Storage) (pname : String)
    (frame : Nat) (bs : List (Shot Blob)) : ∀ i0 : Nat,
    (∀ w ∈ (flattenBackups pname frame bs i0).2,
      storageRead st w.1 = some w.2) →
    openBackups st (flattenBackups pname frame bs i0).1 = some bs := by
  induction bs with
  | nil =>
      intro i0 H
      rfl
  | cons s tail ih =>
      intro i0 H
      simp only [flattenBackups] at H ⊢
      have H1 : ∀ w ∈ (saveShot pname s frame [("backup", i0)]).2,
          storageRead st w.1 = some w.2 :=
        fun w hw => H w (List.mem_append_left _ hw)
      have H2 : ∀ w ∈ (flattenBackups pname frame tail (i0 + 1)).2,
          storageRead st w.1 = some w.2 :=
        fun w hw => H w (List.mem_append_right _ hw)
      simp only [openBackups]
      rw [openShot_saveShot st pname s frame _ H1, ih (i0 + 1) H2]
      rfl

theorem openKoma_flattenKoma (st : Storage) (pname : String) (frame : Nat)
    (k : Koma Blob)
    (H : ∀ w ∈ (flattenKoma pname frame k).2, storageRead st w.1 = some w.2) :
    openKoma st (flattenKoma pname frame k).1 = some k := by
  cases hb : k.backupShots with
  | none =>
      simp only [flattenKoma, hb, List.append_nil] at H ⊢
      simp only [openKoma]
      rw [openShots_flattenShots st pname frame k.shots 0 H]
      show some (⟨k.shots, none, k.target, k.markers⟩ : Koma Blob) = some k
      rw [← hb]
  | some bs =>
      simp only [flattenKoma, hb] at H ⊢
      have H1 : ∀ w ∈ (flattenShots pname frame k.shots 0).2,
          storageRead st w.1 = some w.2 :=
        fun w hw => H w (List.mem_append_left _ hw)
      have H2 : ∀ w ∈ (flattenBackups pname frame bs 0).2,
          storageRead st w.1 = some w.2 :=
        fun w hw => H w (List.mem_append_right _ hw)
      simp only [openKoma]
      rw [openShots_flattenShots st pname frame k.shots 0 H1,
        openBackups_flattenBackups st pname frame bs 0 H2]
      show some (⟨k.shots, some bs, k.target, k.markers⟩ : Koma Blob) = some k
      rw [← hb]

theorem openKomas_flattenKomas (st : Storage) (pname : String)
    (ks : List (Koma Blob)) : ∀ f0 : Nat,
    (∀ w ∈ (flattenKomas pname ks f0).2, storageRead st w.1 = some w.2) →
    openKomas st (flattenKomas pname ks f0).1 = some ks := by
  induction ks with
  | nil =>
      intro f0 H
      rfl
  | cons k tail ih =>
      intro f0 H
      simp only [flattenKomas] at H ⊢
      have H1 : ∀ w ∈ (flattenKoma pname f0 k).2,
          storageRead st w.1 = some w.2 :=
        fun w hw => H w (List.mem_append_left _ hw)
      have H2 : ∀ w ∈ (flattenKomas pname tail (f0 + 1)).2,
          storageRead st w.1 = some w.2 :=
        fun w hw => H w (List.mem_append_right _ hw)
      simp only [openKomas]
      rw [openKoma_flattenKoma st pname f0 k H1, ih (f0 + 1) H2]
      rfl

theorem openMarkerSounds_flatten (st : Storage)
    (ms : List (String × Blob))
    (H : ∀ w ∈ (flattenMarkerSounds ms).2, storageRead st w.1 = some w.2) :
    openMarkerSounds st (flattenMarkerSounds ms).1 = some ms := by
  induction ms with
  | nil => rfl
  | cons kv tail ih =>
      obtain ⟨name, src⟩ := kv
      simp only [flattenMarkerSounds, blobSave, List.singleton_append] at H ⊢
      simp only [List.forall_mem_cons] at H
      simp only [openMarkerSounds, blobOpen]
      rw [H.1, ih H.2]
      rfl

theorem openAudio_flattenAudio (st : Storage) (a : Audio Blob)
    (H : ∀ w ∈ (flattenAudio a).2, storageRead st w.1 = some w.2) :
    openAudio st (flattenAudio a).1 = some a := by
  cases ha : a.src with
  | none =>
      simp only [flattenAudio, ha]
      simp only [openAudio]
      rw [show (⟨none, a.startFrame⟩ : Audio Blob) = a from by rw [← ha]]
  | some src =>
      simp only [flattenAudio, blobSave, ha] at H ⊢
      simp only [List.forall_mem_cons] at H
      simp only [openAudio, blobOpen]
      rw [H.1]
      show some (⟨some src, a.startFrame⟩ : Audio Blob) = some a
      rw [← ha]

theorem mergeOpt_none_right {α : Type} (x : Option α) : mergeOpt x none = x := by
  cases x <;> rfl

theorem mergeRecord_nil_right {α : Type} (l : List (String × α)) :
    mergeRecord l [] = l := by
  simp [mergeRecord]

theorem mergeRecord_covered {α : Type} (l d : List (String × α))
    (h : ∀ kv ∈ d, (l.lookup kv.1).isSome = true) : mergeRecord l d = l := by
  unfold mergeRecord
  have hf : d.filter (fun kv => (l.lookup kv.1).isNone) = [] := by
    rw [List.filter_eq_nil_iff]
    intro kv hkv
    have hs := h kv hkv
    cases hl : List.lookup kv.1 l with
    | none => rw [hl] at hs; cases hs
    | some v => simp [hl]
  rw [hf, List.append_nil]

theorem deepMerge_emptyProject (p : Project Blob)
    (hcam : ∀ kv ∈ emptyProject.cameraConfigs,
      (p.cameraConfigs.lookup kv.1).isSome = true)
    (hvis : ∀ kv ∈ emptyProject.visibleProperties,
      (p.visibleProperties.lookup kv.1).isSome = true) :
    deepMergeExceptArray p emptyProject = p := by
  have h1 : mergeOpt p.timeline.drawing emptyProject.timeline.drawing =
      p.timeline.drawing := mergeOpt_none_right _
  have h2 : mergeOpt p.audio.src emptyProject.audio.src = p.audio.src :=
    mergeOpt_none_right _
  have h3 : mergeRecord p.timeline.markerSounds
      emptyProject.timeline.markerSounds = p.timeline.markerSounds :=
    mergeRecord_nil_right _
  have h4 := mergeRecord_covered p.cameraConfigs emptyProject.cameraConfigs
    hcam
  have h5 := mergeRecord_covered p.visibleProperties
    emptyProject.visibleProperties hvis
  unfold deepMergeExceptArray
  rw [h1, h2, h3, h4, h5]

theorem unflatten_flatten (st : Storage) (p : Project Blob)
    (H : ∀ w ∈ (flattenProject p).2, storageRead st w.1 = some w.2) :
    unflattenProject st (flattenProject p).1 = some p := by
  simp only [flattenProject] at H ⊢
  have Hm : ∀ w ∈ (flattenMarkerSounds p.timeline.markerSounds).2,
      storageRead st w.1 = some w.2 :=
    fun w hw => H w (List.mem_append_left _ (List.mem_append_left _ hw))
  have Hk : ∀ w ∈ (flattenKomas p.name p.komas 0).2,
      storageRead st w.1 = some w.2 :=
    fun w hw => H w (List.mem_append_left _ (List.mem_append_right _ hw))
  have Ha : ∀ w ∈ (flattenAudio p.audio).2, storageRead st w.1 = some w.2 :=
    fun w hw => H w (List.mem_append_right _ hw)
  simp only [unflattenProject]
  rw [openMarkerSounds_flatten st _ Hm,
    openKomas_flattenKomas st p.name p.komas 0 Hk,
    openAudio_flattenAudio st p.audio Ha]
  rfl

/-- Claim C1 (amended): for every project tree whose marker-sound record has
distinct keys (as a JS record does) and whose partial cameraConfigs and
visibleProperties records contain every key of the default template, and for
every storage root, saving the project — flattening every lv, jpg and raw
blob of every shot, the marker sounds and the audio into named files plus the
project.json manifest — and then opening from the same root yields a project
tree binary-content-identical to the original (blobs are modelled by their
content; filenames live only in the root). Without the key-coverage
condition, the merge-with-defaults pass of open injects the missing default
record entries, so the unrestricted round trip fails. The blob store and the
deepMergeExceptArray merge are modelled from the spec, as their source files
are not in the repository snapshot. -/
theorem save_open_round_trip (p : Project Blob) (r : Root)
    (hmk : (p.timeline.markerSounds.map Prod.fst).Nodup)
    (hcam : ∀ kv ∈ emptyProject.cameraConfigs,
      (p.cameraConfigs.lookup kv.1).isSome = true)
    (hvis : ∀ kv ∈ emptyProject.visibleProperties,
      (p.visibleProperties.lookup kv.1).isSome = true) :
    openProject (save p r) = some p := by
  have H : ∀ w ∈ (flattenProject p).2,
      storageRead (writeAll r.files (flattenProject p).2) w.1 = some w.2 :=
    fun w hw => storageRead_writeAll r.files (flattenProject p).2 w.1 w.2 hw
      (flatten_names_nodup p hmk)
  show (unflattenProject (writeAll r.files (flattenProject p).2)
      (flattenProject p).1).bind
      (fun tree => some (deepMergeExceptArray tree emptyProject)) = some p
  rw [unflatten_flatten (writeAll r.files (flattenProject p).2) p H]
  show some (deepMergeExceptArray p emptyProject) = some p
  rw [deepMerge_emptyProject p hcam hvis]

/-- Claim C1 witness: the end-to-end scenario: the project holding one koma
with one shot at layer 0 is saved to an empty root and reopened from that
root; the reopened tree equals the original, whose komas[0].shots[0] holds
exactly the original jpg and lv binary content. -/
theorem save_open_round_trip_witness :
    openProject (save oneShotProject emptyRoot) = some oneShotProject
  ∧ (oneShotProject.komas.getD 0 emptyKoma).shots.getD 0 none =
      some testShot :=
  ⟨save_open_round_trip oneShotProject emptyRoot (by decide) (by decide)
    (by decide), by decide⟩

/-- Claim C1 counterexample: saving the project whose partial cameraConfigs
record is empty and reopening from the same root yields a tree whose
cameraConfigs gained the six default camera entries from the
merge-with-defaults pass of open, so the reopened tree does not deep-equal
the saved one and the unrestricted round trip is false. -/
theorem round_trip_counterexample :
    openProject (save strippedProject emptyRoot) =
      some { strippedProject with cameraConfigs := emptyProject.cameraConfigs }
  ∧ ({ strippedProject with cameraConfigs := emptyProject.cameraConfigs } :
      Project Blob) ≠ strippedProject := by
  constructor
  · have hw0 : (flattenProject strippedProject).2 = [] := rfl
    have H0 : ∀ w ∈ (flattenProject strippedProject).2,
        storageRead (writeAll emptyRoot.files
          (flattenProject strippedProject).2) w.1 = some w.2 := by
      intro w hw
      rw [hw0] at hw
      cases hw
    show (unflattenProject (writeAll emptyRoot.files
        (flattenProject strippedProject).2)
        (flattenProject strippedProject).1).bind
        (fun tree => some (deepMergeExceptArray tree emptyProject)) = _
    rw [unflatten_flatten _ strippedProject H0]
    show some (deepMergeExceptArray strippedProject emptyProject) = _
    have h1 : mergeOpt strippedProject.timeline.drawing
        emptyProject.timeline.drawing = strippedProject.timeline.drawing :=
      mergeOpt_none_right _
    have h2 : mergeOpt strippedProject.audio.src emptyProject.audio.src =
        strippedProject.audio.src := mergeOpt_none_right _
    have h3 : mergeRecord strippedProject.timeline.markerSounds
        emptyProject.timeline.markerSounds =
        strippedProject.timeline.markerSounds := mergeRecord_nil_right _
    have h4 : mergeRecord strippedProject.cameraConfigs
        emptyProject.cameraConfigs = emptyProject.cameraConfigs := by decide
    have h5 : mergeRecord strippedProject.visibleProperties
        emptyProject.visibleProperties =
        strippedProject.visibleProperties := by decide
    unfold deepMergeExceptArray
    rw [h1, h2, h3, h4, h5]
  · intro he
    have hc := congrArg (fun q : Project Blob => q.cameraConfigs) he
    exact absurd hc (by decide)
